import Mathlib

/-!
# Verification of a streaming reverse-proxy worker

This file embeds, shallowly, the three JavaScript source files of the
repository (`src/worker.js`, `src/unnamed/part_000`, `src/index.js`):
a Cloudflare-style worker that proxies a caller-specified target URL,
rewriting HTML/CSS references through its own `/service/<encoded>` path
scheme and sanitizing response headers.

Strings are modelled as lists of natural numbers (the UTF-8 bytes of the
JavaScript string; every string occurring in the claims is ASCII).
Platform builtins used by the source (`encodeURIComponent`,
`decodeURIComponent`, the WHATWG `URL` parser, the `Headers` class) are
modelled explicitly below, each restricted where noted to the fragment the
source exercises.  The host transport (`fetch`) and the platform streaming
`HTMLRewriter` are external collaborators and enter the model as function
parameters; only their observable call/response behaviour matters to the
claims.
-/

/-- Helper: `asc s` is the list of code points of an ASCII string literal, the
byte-level model of a JavaScript string constant. -/
def asc (s : String) : List Nat := s.data.map Char.toNat

/-- ASCII uppercase letter. -/
def isUpperB (c : Nat) : Bool := 65 ≤ c && c ≤ 90

/-- ASCII lowercase letter. -/
def isLowerB (c : Nat) : Bool := 97 ≤ c && c ≤ 122

/-- ASCII letter. -/
def isAlphaB (c : Nat) : Bool := isUpperB c || isLowerB c

/-- ASCII digit. -/
def isDigitB (c : Nat) : Bool := 48 ≤ c && c ≤ 57

/-- Lowercase one ASCII byte (model of `String.prototype.toLowerCase` on
ASCII data). -/
def lowerB (c : Nat) : Nat := if isUpperB c then c + 32 else c

/-- Lowercase a byte string. -/
def lowerL (s : List Nat) : List Nat := s.map lowerB

/-- ASCII whitespace, the fragment of JavaScript `\s` / `trim()` that can
occur in the inputs modelled here. -/
def isWsB (c : Nat) : Bool := c = 32 || c = 9 || c = 10 || c = 11 || c = 12 || c = 13

/-- Substring test `containsSub hay needle`: model of `String.prototype.includes`. -/
def containsSub (hay needle : List Nat) : Bool :=
  match hay with
  | [] => needle.isEmpty
  | _ :: t => needle.isPrefixOf hay || containsSub t needle

/-- Join a list of byte strings with a separator (model of
`Array.prototype.join`). -/
def joinWith (sep : List Nat) : List (List Nat) → List Nat
  | [] => []
  | [x] => x
  | x :: y :: t => x ++ sep ++ joinWith sep (y :: t)

/-- Split a byte string at every occurrence of the single byte `sep`
(model of `String.prototype.split` with a one-character separator). -/
def splitChar (sep : Nat) : List Nat → List (List Nat)
  | [] => [[]]
  | c :: r =>
    match splitChar sep r with
    | [] => if c = sep then [[], []] else [[c]]
    | p :: ps => if c = sep then [] :: p :: ps else (c :: p) :: ps

/-- Model of `String.prototype.trim`, restricted to ASCII whitespace. -/
def trimStr (s : List Nat) : List Nat :=
  ((s.dropWhile isWsB).reverse.dropWhile isWsB).reverse

/-- Helper for `jsSplitWs`: prepend a byte to the first piece. -/
def consHead (c : Nat) : List (List Nat) → List (List Nat)
  | [] => [[c]]
  | p :: t => (c :: p) :: t

/-- Model of `String.prototype.split(/\s+/)`: split on maximal runs of
whitespace; a leading (resp. trailing) run yields a leading (resp.
trailing) empty piece, and the empty string yields `[""]`.  A whitespace
byte followed by more whitespace belongs to the same run and contributes
no split of its own. -/
def jsSplitWs : List Nat → List (List Nat)
  | [] => [[]]
  | c :: rest =>
    if isWsB c then
      if isWsB (rest.headD 0) then jsSplitWs rest
      else [] :: jsSplitWs rest
    else consHead c (jsSplitWs rest)

/-- The characters `encodeURIComponent` leaves unescaped:
`A–Z a–z 0–9 - _ . ! ~ * ' ( )`. -/
def uriUnreserved (c : Nat) : Bool :=
  isAlphaB c || isDigitB c ||
    c = 45 || c = 95 || c = 46 || c = 33 || c = 126 || c = 42 || c = 39 || c = 40 || c = 41

/-- Uppercase hex digit of a value `< 16`. -/
def hexU (d : Nat) : Nat := if d < 10 then 48 + d else 55 + d

/-- Value of a hex digit byte (either case), or `none`. -/
def hexVal (c : Nat) : Option Nat :=
  if 48 ≤ c ∧ c ≤ 57 then some (c - 48)
  else if 65 ≤ c ∧ c ≤ 70 then some (c - 55)
  else if 97 ≤ c ∧ c ≤ 102 then some (c - 87)
  else none

/-- Model of the builtin `encodeURIComponent`, at the level of the UTF-8
bytes of the argument: unreserved bytes pass through, every other byte
becomes `%HH` with uppercase hex. -/
def encodeURIComponent : List Nat → List Nat
  | [] => []
  | b :: t =>
    (if uriUnreserved b then [b] else [37, hexU (b / 16), hexU (b % 16)]) ++
      encodeURIComponent t

/-- Percent-decoding pass of `decodeURIComponent`: each `%HH` becomes one
byte; a `%` not followed by two hex digits is a `URIError` (`none`). -/
def percentDecode : List Nat → Option (List Nat)
  | [] => some []
  | c :: t =>
    if c = 37 then
      match t with
      | h :: l :: t2 =>
        match hexVal h, hexVal l with
        | some a, some b => (percentDecode t2).map (fun r => (16 * a + b) :: r)
        | _, _ => none
      | _ => none
    else (percentDecode t).map (fun r => c :: r)

/-- Is a byte a UTF-8 continuation byte? -/
def utf8Cont (c : Nat) : Bool := 128 ≤ c && c ≤ 191

/-- UTF-8 well-formedness of a byte string (`decodeURIComponent` raises
`URIError` when the percent-decoded bytes are not valid UTF-8). -/
def utf8Valid : List Nat → Bool
  | [] => true
  | b :: t =>
    if b < 128 then utf8Valid t
    else
      match t with
      | [] => false
      | c :: t2 =>
        if 194 ≤ b && b ≤ 223 then utf8Cont c && utf8Valid t2
        else
          match t2 with
          | [] => false
          | d :: t3 =>
            if b = 224 then (160 ≤ c && c ≤ 191) && utf8Cont d && utf8Valid t3
            else if (225 ≤ b && b ≤ 236) || b = 238 || b = 239 then
              utf8Cont c && utf8Cont d && utf8Valid t3
            else if b = 237 then (128 ≤ c && c ≤ 159) && utf8Cont d && utf8Valid t3
            else
              match t3 with
              | [] => false
              | e :: t4 =>
                if b = 240 then
                  (144 ≤ c && c ≤ 191) && utf8Cont d && utf8Cont e && utf8Valid t4
                else if 241 ≤ b && b ≤ 243 then
                  utf8Cont c && utf8Cont d && utf8Cont e && utf8Valid t4
                else if b = 244 then
                  (128 ≤ c && c ≤ 143) && utf8Cont d && utf8Cont e && utf8Valid t4
                else false

/-- Model of the builtin `decodeURIComponent`: percent-decode, failing on
malformed escapes or ill-formed UTF-8. -/
def decodeURIComponent (s : List Nat) : Option (List Nat) :=
  match percentDecode s with
  | some bs => if utf8Valid bs then some bs else none
  | none => none

example : encodeURIComponent (asc "https://a.com/") = asc "https%3A%2F%2Fa.com%2F" := by decide
example : decodeURIComponent (asc "https%3A%2F%2Fa.com%2F") = some (asc "https://a.com/") := by decide
example : jsSplitWs (asc "a.png  2x") = [asc "a.png", asc "2x"] := by decide
example : splitChar 44 (asc "a, b") = [asc "a", asc " b"] := by decide
example : trimStr (asc "  a b ") = asc "a b" := by decide
example : containsSub (asc "text/html; x") (asc "text/html") = true := by decide

/-!
## Model of the WHATWG `URL` builtin

`src/worker.js` and `src/unnamed/part_000` rely on the platform `URL`
class (`new URL(rel, base)`, `.toString()`, `.origin`, `.pathname`).  The
model below covers the fragment the source exercises: the special schemes
`http`/`https` with an ASCII host (no userinfo, no IPv6, no IDNA, and no
percent-encoding normalization of path/query bytes), scheme and host
lowercasing, default-port elision, dot-segment removal, and the empty
path serializing as `/`.  A reference the model cannot parse or resolve
is reported as `none`, which the source's `try`/`catch` turns into the
degraded return-the-input behaviour.
-/

structure Url where
  scheme : List Nat
  host : List Nat
  port : Option Nat
  path : List Nat
  query : Option (List Nat)
  fragment : Option (List Nat)
deriving DecidableEq

/-- Bytes allowed in a scheme after the first letter. -/
def schemeChar (c : Nat) : Bool := isAlphaB c || isDigitB c || c = 43 || c = 45 || c = 46

/-- Bytes the model accepts in a (lowercased) host. -/
def hostChar (c : Nat) : Bool := isLowerB c || isDigitB c || c = 45 || c = 46

/-- Bytes that do not terminate the authority section: `/`, `?`, `#`. -/
def authChar (c : Nat) : Bool := c != 47 && c != 63 && c != 35

/-- Bytes that do not terminate the path section: `?`, `#`. -/
def pathChar (c : Nat) : Bool := c != 63 && c != 35

/-- Decimal value of a digit string. -/
def digitsToNat (ds : List Nat) : Nat := ds.foldl (fun a c => 10 * a + (c - 48)) 0

/-- Decimal digits of a number, as ASCII bytes. -/
def natDigits (n : Nat) : List Nat := (Nat.repr n).data.map Char.toNat

/-- Default port of a special scheme. -/
def defaultPort (scheme : List Nat) : Option Nat :=
  if scheme = asc "http" then some 80
  else if scheme = asc "https" then some 443
  else none

/-- One step of WHATWG path-segment normalization: `.` is dropped, `..`
pops a segment, and a final `.`/`..` leaves a trailing empty segment.
`acc` holds the output segments in reverse. -/
def pathFold : List (List Nat) → List (List Nat) → List (List Nat)
  | [], acc => acc.reverse
  | [s], acc =>
    if s = [46] then ([] :: acc).reverse
    else if s = [46, 46] then ([] :: acc.drop 1).reverse
    else (s :: acc).reverse
  | s :: rest, acc =>
    if s = [46] then pathFold rest acc
    else if s = [46, 46] then pathFold rest (acc.drop 1)
    else pathFold rest (s :: acc)

/-- Normalize a raw path: remove dot segments; the empty path of a
special-scheme URL serializes as `/`. -/
def removeDotSegments (p : List Nat) : List Nat :=
  if p.isEmpty then [47]
  else 47 :: joinWith [47] (pathFold ((splitChar 47 p).drop 1) [])

/-- Split the text after the path into `(query, fragment)`. -/
def parseQF (rest2 : List Nat) : Option (List Nat) × Option (List Nat) :=
  match rest2 with
  | 63 :: r2 =>
    (some (r2.takeWhile (fun c => c != 35)),
      match r2.dropWhile (fun c => c != 35) with
      | 35 :: f => some f
      | _ => none)
  | 35 :: f => (none, some f)
  | _ => (none, none)

/-- Parse the path/query/fragment section that follows the authority. -/
def parsePathRest (scheme host : List Nat) (port : Option Nat) (rest : List Nat) : Url :=
  let rawPath := rest.takeWhile pathChar
  let rest2 := rest.dropWhile pathChar
  let qf := parseQF rest2
  ⟨scheme, host, port, removeDotSegments rawPath, qf.1, qf.2⟩

/-- Parse `host[:port]` followed by path/query/fragment.  (`portRaw`, the
part of the authority from the first `:` on, is either empty or starts
with `:`, so its `tail` is the digit string.) -/
def parseAuthority (scheme r : List Nat) : Option Url :=
  let auth := r.takeWhile authChar
  let rest := r.dropWhile authChar
  let hostRaw := auth.takeWhile (fun c => c != 58)
  let portRaw := auth.dropWhile (fun c => c != 58)
  let host := lowerL hostRaw
  if !host.isEmpty && host.all hostChar then
    if portRaw.isEmpty then some (parsePathRest scheme host none rest)
    else
      let ds := portRaw.tail
      if ds.all isDigitB then
        if ds.isEmpty then some (parsePathRest scheme host none rest)
        else
          let p := digitsToNat ds
          if 65536 ≤ p then none
          else if defaultPort scheme = some p then some (parsePathRest scheme host none rest)
          else some (parsePathRest scheme host (some p) rest)
      else none
  else none

/-- Model of parsing an absolute `http`/`https` URL string with the
WHATWG `URL` builtin (restrictions listed in the section comment).  The
text from the first `:` on is either empty (no scheme: fail) or starts
with `:`; its `tail` must then start with `//`. -/
def parseURL (s : List Nat) : Option Url :=
  let sch := s.takeWhile (fun c => c != 58)
  let rest := s.dropWhile (fun c => c != 58)
  if rest.isEmpty then none
  else
    let afterColon := rest.tail
    let scheme := lowerL sch
    if (!sch.isEmpty && isAlphaB (sch.headD 0) && sch.all schemeChar) &&
        (scheme == asc "http" || scheme == asc "https") then
      if (asc "//").isPrefixOf afterColon then parseAuthority scheme (afterColon.drop 2)
      else none
    else none

/-- Serialization `url.origin` of a parsed URL: `scheme://host[:port]`. -/
def originString (u : Url) : List Nat :=
  u.scheme ++ asc "://" ++ u.host ++
    (match u.port with
     | some p => 58 :: natDigits p
     | none => [])

/-- Serialization `url.toString()` of a parsed URL. -/
def serializeURL (u : Url) : List Nat :=
  originString u ++ u.path ++
    (match u.query with
     | some q => 63 :: q
     | none => []) ++
    (match u.fragment with
     | some f => 35 :: f
     | none => [])

/-- The base path up to and including its last `/` (the merge step of
relative-reference resolution). -/
def dirOf (p : List Nat) : List Nat := (p.reverse.dropWhile (fun c => c != 47)).reverse

/-- Resolve a non-absolute reference against a parsed base, per the
WHATWG basic URL parser: empty, scheme-relative (`//`), query-only (`?`),
fragment-only (`#`), absolute-path (`/`) and relative-path references.
A reference whose first segment contains `:` (a non-`http(s)` scheme) is
outside the model and reported as `none`. -/
def resolveRelative (b : Url) (rel : List Nat) : Option Url :=
  if rel.isEmpty then some { b with fragment := none }
  else if (asc "//").isPrefixOf rel then parseAuthority b.scheme (rel.drop 2)
  else if rel.headD 0 = 63 then
    let r2 := rel.drop 1
    let q := r2.takeWhile (fun c => c != 35)
    let f :=
      match r2.dropWhile (fun c => c != 35) with
      | 35 :: fr => some fr
      | _ => none
    some { b with query := some q, fragment := f }
  else if rel.headD 0 = 35 then some { b with fragment := some (rel.drop 1) }
  else if (rel.takeWhile (fun c => authChar c)).any (fun c => c = 58) then none
  else
    let p := rel.takeWhile pathChar
    let rest2 := rel.dropWhile pathChar
    let qf := parseQF rest2
    let newPath :=
      if rel.headD 0 = 47 then removeDotSegments p
      else removeDotSegments (dirOf b.path ++ p)
    some ⟨b.scheme, b.host, b.port, newPath, qf.1, qf.2⟩

/-- Function `resolveUrl` from `src/worker.js` lines 7–13 and
`src/unnamed/part_000` lines 7–13:
`try { return new URL(rel, base).toString(); } catch { return rel; }`. -/
def resolveUrl (base rel : List Nat) : List Nat :=
  match parseURL rel with
  | some u => serializeURL u
  | none =>
    match parseURL base with
    | some b =>
      match resolveRelative b rel with
      | some u => serializeURL u
      | none => rel
    | none => rel

example : parseURL (asc "https://a.com:8443/p?q#f") =
    some ⟨asc "https", asc "a.com", some 8443, asc "/p", some (asc "q"), some (asc "f")⟩ := by decide
example : parseURL (asc "HTTPS://A.com:443/x/../y") =
    some ⟨asc "https", asc "a.com", none, asc "/y", none, none⟩ := by decide
example : parseURL (asc "https://example.com") =
    some ⟨asc "https", asc "example.com", none, asc "/", none, none⟩ := by decide
example : resolveUrl (asc "https://example.com/") (asc "a.png") = asc "https://example.com/a.png" := by decide
example : resolveUrl (asc "https://example.com/dir/page.html") (asc "x.css") =
    asc "https://example.com/dir/x.css" := by decide
example : resolveUrl (asc "https://example.com/dir/") (asc "/x") = asc "https://example.com/x" := by decide
example : resolveUrl (asc "https://example.com/") (asc "//cdn.net/l.js") = asc "https://cdn.net/l.js" := by decide
example : resolveUrl (asc "https://example.com/") (asc "ht tp://bad") = asc "ht tp://bad" := by decide
example : originString ⟨asc "https", asc "a.com", some 8443, asc "/p", none, none⟩ =
    asc "https://a.com:8443" := by decide

/-!
## Model of the `Headers` builtin and the header sanitizers

JavaScript `Headers` is an ordered multimap with case-insensitive names:
`get` joins all values of a name with `", "`, `set` replaces every value
of the name with a single one (keeping the position of the first), and
`delete` removes every value of the name.  A header set is modelled as an
association list of (name, value) byte strings.
-/

/-- Model of `Headers.prototype.delete`. -/
def headersDelete (n : List Nat) (h : List (List Nat × List Nat)) : List (List Nat × List Nat) :=
  h.filter (fun e => !(lowerL e.1 == lowerL n))

/-- Model of `Headers.prototype.set`. -/
def headersSet (n v : List Nat) : List (List Nat × List Nat) → List (List Nat × List Nat)
  | [] => [(n, v)]
  | e :: t =>
    if lowerL e.1 == lowerL n then (n, v) :: headersDelete n t
    else e :: headersSet n v t

/-- Model of `Headers.prototype.get`: a `", "`-join of all values of the name, or
`none`. -/
def headersGet (n : List Nat) (h : List (List Nat × List Nat)) : Option (List Nat) :=
  match (h.filter (fun e => lowerL e.1 == lowerL n)).map Prod.snd with
  | [] => none
  | v :: vs => some (joinWith (asc ", ") (v :: vs))

/-- Model of `Headers.prototype.has`. -/
def headersHas (n : List Nat) (h : List (List Nat × List Nat)) : Bool :=
  h.any (fun e => lowerL e.1 == lowerL n)

/-- Function `sanitizeHeadersInPlace` from `src/worker.js` lines 128–135: delete
the two CSP headers and `x-frame-options`, then force the three CORS
headers.  (It does not touch `x-content-type-options`.) -/
def sanitizeHeadersInPlace (h : List (List Nat × List Nat)) : List (List Nat × List Nat) :=
  headersSet (asc "access-control-allow-methods") (asc "GET,POST,PUT,PATCH,DELETE,OPTIONS")
    (headersSet (asc "access-control-allow-headers") (asc "*")
      (headersSet (asc "access-control-allow-origin") (asc "*")
        (headersDelete (asc "x-frame-options")
          (headersDelete (asc "content-security-policy-report-only")
            (headersDelete (asc "content-security-policy") h)))))

/-- Function `sanitizeHeaders` from `src/unnamed/part_000` lines 83–108: build a
fresh header set; conditionally delete the two CSP headers,
`x-frame-options` and `x-content-type-options`; force the three CORS
headers; and, when the body is being served as HTML, overwrite
`content-type` with `text/html; charset=utf-8` unless the existing value
already matches `/text\/html/i`.  The sequence of deletes and CORS sets
(everything before the `content-type` step) is factored out as
`sanitizeHeadersCore`. -/
def sanitizeHeadersCore (headers : List (List Nat × List Nat)) : List (List Nat × List Nat) :=
  let h1 := if headersHas (asc "content-security-policy") headers then
      headersDelete (asc "content-security-policy") headers else headers
  let h2 := if headersHas (asc "content-security-policy-report-only") h1 then
      headersDelete (asc "content-security-policy-report-only") h1 else h1
  let h3 := headersSet (asc "access-control-allow-origin") (asc "*") h2
  let h4 := headersSet (asc "access-control-allow-headers") (asc "*") h3
  let h5 := headersSet (asc "access-control-allow-methods") (asc "GET,POST,PUT,PATCH,DELETE,OPTIONS") h4
  let h6 := if headersHas (asc "x-frame-options") h5 then
      headersDelete (asc "x-frame-options") h5 else h5
  if headersHas (asc "x-content-type-options") h6 then
      headersDelete (asc "x-content-type-options") h6 else h6

def sanitizeHeaders (headers : List (List Nat × List Nat)) (contentTypeIsHtml : Bool) :
    List (List Nat × List Nat) :=
  let h7 := sanitizeHeadersCore headers
  if contentTypeIsHtml then
    let ct := (headersGet (asc "content-type") h7).getD (asc "text/html; charset=utf-8")
    if containsSub (lowerL ct) (asc "text/html") then h7
    else headersSet (asc "content-type") (asc "text/html; charset=utf-8") h7
  else h7

/-!
## The proxy address codec
-/

/-- Function `toProxiedPath` from `src/worker.js` lines 3–5 (and
`src/unnamed/part_000` lines 18–27, via `encodeTarget`):
`"/service/" + encodeURIComponent(target)`. -/
def toProxiedPath (target : List Nat) : List Nat :=
  asc "/service/" ++ encodeURIComponent target

/-- The decode stage of the dispatcher, `src/worker.js` lines 141–150:
check the route prefix, strip it, refuse an empty remainder, and
percent-decode (a `URIError` is the 400 `Bad encoded URL` outcome,
`none` here). -/
def decodeProxiedPath (p : List Nat) : Option (List Nat) :=
  if (asc "/service/").isPrefixOf p then
    let encoded := p.drop (asc "/service/").length
    if encoded.isEmpty then none else decodeURIComponent encoded
  else none

example : toProxiedPath (asc "https://example.com/x") =
    asc "/service/https%3A%2F%2Fexample.com%2Fx" := by decide
example : decodeProxiedPath (asc "/service/https%3A%2F%2Fexample.com%2Fx") =
    some (asc "https://example.com/x") := by decide

/-!
## The CSS / inline-style `url(...)` rewriter

`src/worker.js` applies
`.replace(/url\((['"]?)([^'")]+)\1\)/g, (m, q, u) => u.startsWith('data:') ? m : `url(${toProxiedPath(resolveUrl(origin, u))}`)`
both to inline `style` attribute values (lines 88–99) and to CSS bodies
(lines 114–126).  The scanner below models this global regex replace:
left-to-right, at each position try the pattern (literal `url(`, an
optional quote, one or more bytes none of which is a quote or `)`, the
matching quote, `)`); on a match emit the replacement and continue after
the match, otherwise emit the byte and advance.  The recursion is by an
explicit fuel, which `rewriteCssUrls` instantiates with the text length.
-/

/-- A byte the regex class `[^'")]` excludes. -/
def urlDelim (c : Nat) : Bool := c = 39 || c = 34 || c = 41

/-- Try the regex `url\((['"]?)([^'")]+)\1\)` at the head of `s`; on
success return the captured quote, the captured URL, and the text after
the match. -/
def tryMatchUrl (s : List Nat) : Option (Option Nat × List Nat × List Nat) :=
  match s with
  | 117 :: 114 :: 108 :: 40 :: rest =>
    match rest with
    | [] => none
    | c :: r2 =>
      if c = 39 || c = 34 then
        let u := r2.takeWhile (fun b => !urlDelim b)
        match r2.dropWhile (fun b => !urlDelim b) with
        | c2 :: 41 :: r3 => if c2 = c && !u.isEmpty then some (some c, u, r3) else none
        | _ => none
      else
        let u := rest.takeWhile (fun b => !urlDelim b)
        match rest.dropWhile (fun b => !urlDelim b) with
        | 41 :: r3 => if !u.isEmpty then some (none, u, r3) else none
        | _ => none
  | _ => none

/-- Re-render a match of the `url(...)` regex (the string the callback
receives as `m`). -/
def renderUrlCall (q : Option Nat) (u : List Nat) : List Nat :=
  asc "url(" ++
    (match q with
     | none => u ++ [41]
     | some qc => qc :: (u ++ qc :: [41]))

/-- The replacement callback: `data:` URLs are returned as the whole
match, others become `url(<proxied>)`. -/
def cssReplaceMatch (targetOrigin : List Nat) (q : Option Nat) (u : List Nat) : List Nat :=
  if (asc "data:").isPrefixOf u then renderUrlCall q u
  else asc "url(" ++ toProxiedPath (resolveUrl targetOrigin u) ++ [41]

/-- Fuelled scanner of the global regex replace. -/
def cssScanF (targetOrigin : List Nat) : Nat → List Nat → List Nat
  | _, [] => []
  | 0, s => s
  | fuel + 1, c :: rest =>
    match tryMatchUrl (c :: rest) with
    | some (q, u, r3) => cssReplaceMatch targetOrigin q u ++ cssScanF targetOrigin fuel r3
    | none => c :: cssScanF targetOrigin fuel rest

/-- The global `url(...)` regex replace over a text. -/
def rewriteCssUrls (targetOrigin s : List Nat) : List Nat :=
  cssScanF targetOrigin s.length s

/-- The `[style]` element handler of `htmlRewriter`, `src/worker.js`
lines 88–99: rewrite `url(...)` occurrences of an inline style value. -/
def htmlStyleHandler (targetOrigin style : List Nat) : List Nat :=
  rewriteCssUrls targetOrigin style

/-- The text transform of `rewriteCss`, `src/worker.js` lines 114–121:
rewrite `url(...)` occurrences of a CSS body. -/
def rewriteCssBody (targetOrigin cssText : List Nat) : List Nat :=
  rewriteCssUrls targetOrigin cssText

/-- One element of the `map` in the srcset handler, `src/worker.js`
lines 55–58: `const [u, w] = part.trim().split(/\s+/)`, then the proxied
resolved URL with the descriptor re-attached (`w ? " " + w : ""`, so an
`undefined` or empty descriptor contributes nothing). -/
def srcsetRewritePart (targetOrigin part : List Nat) : List Nat :=
  let toks := jsSplitWs (trimStr part)
  let u := toks.headD []
  let w := toks.get? 1
  toProxiedPath (resolveUrl targetOrigin u) ++
    (match w with
     | some d => if d.isEmpty then [] else 32 :: d
     | none => [])

/-- The `img[srcset], source[srcset]` handler of `htmlRewriter`,
`src/worker.js` lines 51–62: split on `,`, rewrite each part, and
re-join with `", "`. -/
def srcsetHandler (targetOrigin srcset : List Nat) : List Nat :=
  joinWith (asc ", ") ((splitChar 44 srcset).map (srcsetRewritePart targetOrigin))

/-- A well-formed srcset token (URL or descriptor): non-empty, and free
of whitespace and commas. -/
def tokenOK (s : List Nat) : Bool :=
  !s.isEmpty && s.all (fun c => !isWsB c && c != 44)

/-- Render one `(url, descriptor?)` srcset entry as text. -/
def renderSrcsetEntry (e : List Nat × Option (List Nat)) : List Nat :=
  e.1 ++
    (match e.2 with
     | some d => 32 :: d
     | none => [])

/-- Render a srcset attribute value from its entries, separated by
`", "` as in the spec's examples. -/
def renderSrcset (entries : List (List Nat × Option (List Nat))) : List Nat :=
  joinWith (asc ", ") (entries.map renderSrcsetEntry)

/-- The expected rewrite of one entry: the URL resolved against the
rewriter's base and proxied, the descriptor kept verbatim. -/
def proxiedSrcsetEntry (targetOrigin : List Nat) (e : List Nat × Option (List Nat)) :
    List Nat :=
  toProxiedPath (resolveUrl targetOrigin e.1) ++
    (match e.2 with
     | some d => 32 :: d
     | none => [])

example : srcsetHandler (asc "https://example.com/") (asc "a.png 1x, b.png 2x") =
    asc "/service/https%3A%2F%2Fexample.com%2Fa.png 1x, /service/https%3A%2F%2Fexample.com%2Fb.png 2x" := by
  decide
example : rewriteCssBody (asc "https://example.com/") (asc "body\x7bbackground:url(bg.png)\x7d") =
    asc "body\x7bbackground:url(/service/https%3A%2F%2Fexample.com%2Fbg.png)\x7d" := by decide
example : htmlStyleHandler (asc "https://example.com/")
      (asc "background:url(data:image/png;base64,iVBOR=)") =
    asc "background:url(data:image/png;base64,iVBOR=)" := by decide
example : rewriteCssBody (asc "https://example.com/")
      (renderUrlCall (some 39) (asc "x.png") ++ renderUrlCall (some 34) (asc "y.png")) =
    asc "url(/service/https%3A%2F%2Fexample.com%2Fx.png)" ++
      asc "url(/service/https%3A%2F%2Fexample.com%2Fy.png)" := by decide

/-!
## The request dispatchers

Each source file's `fetch(request)` entry point first parses
`new URL(request.url)` and then only reads `url.origin` and
`url.pathname`, so the dispatcher cores below take those two strings.
The host transport `fetch(target, init)` is a parameter
`T : List Nat → Except (List Nat) Upstream` (an `Except.error` is a
thrown transport error carrying the error's text; the forwarded `init` —
method, request headers, body — is not observed by any claim and is
elided from the transport's argument).  The platform streaming
`HTMLRewriter` transform is a parameter
`hT : List Nat → List Nat → List Nat` taking the rewriter's base string
(`new URL(target).toString()`) and the body.  A dispatcher result records
the response (`none` models an uncaught exception) and the target of the
outbound fetch, if one was issued.
-/

structure Upstream where
  status : Nat
  headers : List (List Nat × List Nat)
  body : List Nat
  isOpaque : Bool
deriving DecidableEq

structure Resp where
  status : Nat
  body : List Nat
  headers : List (List Nat × List Nat)
deriving DecidableEq

structure DOut where
  resp : Option Resp
  fetched : Option (List Nat)
deriving DecidableEq

/-- Content classification and response building of `src/worker.js`
lines 172–188, after a successful upstream fetch: sanitize a copy of the
upstream headers; on `text/html` transform the body through the platform
rewriter (built over `new URL(target).toString()`, whose parse failure
is an uncaught throw) and force `content-type: text/html; charset=utf-8`;
on `text/css` rewrite the body and rebuild headers as `rewriteCss` does;
otherwise stream body and sanitized headers through. -/
def workerHandleUpstream (target : List Nat) (up : Upstream)
    (hT : List Nat → List Nat → List Nat) : DOut :=
  let ct := (headersGet (asc "content-type") up.headers).getD []
  let lowerCT := lowerL ct
  let hs := sanitizeHeadersInPlace up.headers
  if containsSub lowerCT (asc "text/html") then
    match parseURL target with
    | none => ⟨none, some target⟩
    | some t =>
      ⟨some ⟨up.status, hT (serializeURL t) up.body,
          headersSet (asc "content-type") (asc "text/html; charset=utf-8") hs⟩,
        some target⟩
  else if containsSub lowerCT (asc "text/css") then
    match parseURL target with
    | none => ⟨none, some target⟩
    | some t =>
      ⟨some ⟨up.status, rewriteCssBody (serializeURL t) up.body,
          sanitizeHeadersInPlace
            (headersSet (asc "content-type") (asc "text/css; charset=utf-8") up.headers)⟩,
        some target⟩
  else ⟨some ⟨up.status, up.body, hs⟩, some target⟩

/-- Recursion guard and upstream fetch of `src/worker.js` lines 152–170,
for an already-decoded target. -/
def workerAfterDecode (origin target : List Nat)
    (T : List Nat → Except (List Nat) Upstream)
    (hT : List Nat → List Nat → List Nat) : DOut :=
  if origin.isPrefixOf target then
    ⟨some ⟨400, asc "Refusing to proxy worker origin", []⟩, none⟩
  else
    match T target with
    | .error err => ⟨some ⟨502, asc "Upstream fetch error: " ++ err, []⟩, some target⟩
    | .ok up => workerHandleUpstream target up hT

/-- The dispatcher of `src/worker.js` lines 137–189: routing, decoding,
then `workerAfterDecode`. -/
def workerDispatch (origin pathname : List Nat)
    (T : List Nat → Except (List Nat) Upstream)
    (hT : List Nat → List Nat → List Nat) : DOut :=
  if (asc "/service/").isPrefixOf pathname then
    if (pathname.drop (asc "/service/").length).isEmpty then
      ⟨some ⟨400, asc "Missing encoded URL", []⟩, none⟩
    else
      match decodeURIComponent (pathname.drop (asc "/service/").length) with
      | none => ⟨some ⟨400, asc "Bad encoded URL", []⟩, none⟩
      | some target => workerAfterDecode origin target T hT
  else ⟨some ⟨200, asc "Boat Proxy Worker ready. Use /service/<encodedURL>", []⟩, none⟩

/-- Response building of `src/unnamed/part_000` lines 164–185, after the
opaque-response guard: classify by `content-type`, sanitize headers with
the HTML flag, and transform the body through the platform rewriter on
the HTML path. -/
def uvServe (target : List Nat) (up : Upstream)
    (hT : List Nat → List Nat → List Nat) : DOut :=
  let ct := (headersGet (asc "content-type") up.headers).getD []
  let isHtml := containsSub (lowerL ct) (asc "text/html")
  let safe := sanitizeHeaders up.headers isHtml
  if isHtml then
    match parseURL target with
    | none => ⟨none, some target⟩
    | some t => ⟨some ⟨up.status, hT (serializeURL t) up.body, safe⟩, some target⟩
  else ⟨some ⟨up.status, up.body, safe⟩, some target⟩

/-- Recursion guard, upstream fetch and opaque-response guard of
`src/unnamed/part_000` lines 147–162, for an already-decoded target. -/
def uvAfterDecode (origin target : List Nat)
    (T : List Nat → Except (List Nat) Upstream)
    (hT : List Nat → List Nat → List Nat) : DOut :=
  if origin.isPrefixOf target then
    ⟨some ⟨400, asc "Refusing to proxy this origin", []⟩, none⟩
  else
    match T target with
    | .error err => ⟨some ⟨502, asc "Upstream fetch error: " ++ err, []⟩, some target⟩
    | .ok up =>
      if up.isOpaque then
        ⟨some ⟨502, asc "Opaque upstream response; try a different site", []⟩, some target⟩
      else uvServe target up hT

/-- The dispatcher of `src/unnamed/part_000` lines 110–186
(`WORKER_BASE` is the empty string): health route, routing, decoding,
then `uvAfterDecode`. -/
def uvDispatch (origin pathname : List Nat)
    (T : List Nat → Except (List Nat) Upstream)
    (hT : List Nat → List Nat → List Nat) : DOut :=
  if pathname = asc "/" ∨ pathname = asc "" then
    ⟨some ⟨200, asc "Ultraviolet-style Worker: use /service/<encodedURL>", []⟩, none⟩
  else if !(asc "/service/").isPrefixOf pathname then
    ⟨some ⟨404, asc "Not found. Use /service/<encodedURL>", []⟩, none⟩
  else
    if (pathname.drop (asc "/service/").length).isEmpty then
      ⟨some ⟨400, asc "Missing encoded URL", []⟩, none⟩
    else
      match decodeURIComponent (pathname.drop (asc "/service/").length) with
      | none => ⟨some ⟨400, asc "Bad encoded URL", []⟩, none⟩
      | some target => uvAfterDecode origin target T hT

/-- Remove the first occurrence of `pat` from `s`
(`String.prototype.replace` with a string pattern and empty
replacement). -/
def replaceFirst (s pat : List Nat) : List Nat :=
  match s with
  | [] => []
  | c :: t => if pat.isPrefixOf (c :: t) then (c :: t).drop pat.length else c :: replaceFirst t pat

/-- The dispatcher of `src/index.js`: no emptiness check, no recursion
guard, `decodeURIComponent` outside the `try` (a `URIError` escapes, the
`none` response), the upstream response returned as-is, and a transport
failure answered with status 500. -/
def indexDispatch (pathname : List Nat)
    (T : List Nat → Except (List Nat) Upstream) : DOut :=
  if (asc "/service/").isPrefixOf pathname then
    match decodeURIComponent (replaceFirst pathname (asc "/service/")) with
    | none => ⟨none, none⟩
    | some target =>
      match T target with
      | .ok up => ⟨some ⟨up.status, up.body, up.headers⟩, some target⟩
      | .error err => ⟨some ⟨500, asc "Error fetching target: " ++ err, []⟩, some target⟩
  else ⟨some ⟨200, asc "Ultraviolet Worker running. Use /service/<url>", []⟩, none⟩

/-- Entry point: `workerDispatch` driven from the raw request URL, as
`src/worker.js` line 139 does with `new URL(request.url)`. -/
def workerFetchEntry (requestUrl : List Nat)
    (T : List Nat → Except (List Nat) Upstream)
    (hT : List Nat → List Nat → List Nat) : DOut :=
  match parseURL requestUrl with
  | some u => workerDispatch (originString u) u.path T hT
  | none => ⟨none, none⟩

/-- Entry point: `uvDispatch` driven from the raw request URL, as
`src/unnamed/part_000` line 112 does. -/
def uvFetchEntry (requestUrl : List Nat)
    (T : List Nat → Except (List Nat) Upstream)
    (hT : List Nat → List Nat → List Nat) : DOut :=
  match parseURL requestUrl with
  | some u => uvDispatch (originString u) u.path T hT
  | none => ⟨none, none⟩

example :
    workerDispatch (asc "https://w.dev") (asc "/service/https%3A%2F%2Fa.com%2F")
      (fun _ => .error (asc "boom")) (fun _ b => b) =
    ⟨some ⟨502, asc "Upstream fetch error: boom", []⟩, some (asc "https://a.com/")⟩ := by decide
example :
    workerDispatch (asc "https://w.dev") (asc "/x") (fun _ => .error []) (fun _ b => b) =
    ⟨some ⟨200, asc "Boat Proxy Worker ready. Use /service/<encodedURL>", []⟩, none⟩ := by decide
example :
    uvDispatch (asc "https://w.dev") (asc "/foo") (fun _ => .error []) (fun _ b => b) =
    ⟨some ⟨404, asc "Not found. Use /service/<encodedURL>", []⟩, none⟩ := by decide

/-!
## General list helpers
-/

theorem isPrefixOf_self_append (a b : List Nat) : a.isPrefixOf (a ++ b) = true := by
  induction a with
  | nil => simp [List.isPrefixOf]
  | cons x t ih => simp [List.isPrefixOf, ih]

theorem length_dropWhile_le' (p : Nat → Bool) (l : List Nat) :
    (l.dropWhile p).length ≤ l.length := by
  induction l with
  | nil => simp [List.dropWhile]
  | cons x t ih =>
    rw [List.dropWhile_cons]
    by_cases hx : p x = true
    · simp only [hx, if_true, List.length_cons]; omega
    · simp [hx]

theorem mem_of_mem_dropWhile' {p : Nat → Bool} {x : Nat} :
    ∀ {l : List Nat}, x ∈ l.dropWhile p → x ∈ l := by
  intro l
  induction l with
  | nil => simp [List.dropWhile]
  | cons a t ih =>
    rw [List.dropWhile_cons]
    by_cases ha : p a = true
    · simp only [ha, if_true]
      intro h
      exact List.mem_cons_of_mem _ (ih h)
    · simp [ha]

theorem takeWhile_append_stop {p : Nat → Bool} {y : Nat} (hy : p y = false)
    (xs ys : List Nat) :
    (xs ++ y :: ys).takeWhile p = xs.takeWhile p ∧
      (xs ++ y :: ys).dropWhile p = xs.dropWhile p ++ y :: ys := by
  induction xs with
  | nil => simp [List.takeWhile_cons, List.dropWhile_cons, hy]
  | cons x t ih =>
    rw [List.cons_append, List.takeWhile_cons, List.takeWhile_cons,
      List.dropWhile_cons, List.dropWhile_cons]
    by_cases hx : p x = true
    · simp only [hx, if_true, ih.1, ih.2, List.cons_append]
      exact ⟨trivial, trivial⟩
    · simp [hx]

theorem takeWhile_append_in {p : Nat → Bool} {xs : List Nat}
    (h : xs.dropWhile p ≠ []) (ys : List Nat) :
    (xs ++ ys).takeWhile p = xs.takeWhile p ∧
      (xs ++ ys).dropWhile p = xs.dropWhile p ++ ys := by
  induction xs with
  | nil => simp [List.dropWhile] at h
  | cons x t ih =>
    rw [List.cons_append, List.takeWhile_cons, List.takeWhile_cons,
      List.dropWhile_cons, List.dropWhile_cons]
    by_cases hx : p x = true
    · rw [List.dropWhile_cons, if_pos hx] at h
      simp only [hx, if_true, (ih h).1, (ih h).2, List.cons_append]
      exact ⟨trivial, trivial⟩
    · simp [hx]

theorem takeWhile_all_eq {p : Nat → Bool} {xs : List Nat}
    (h : ∀ x ∈ xs, p x = true) :
    xs.takeWhile p = xs ∧ xs.dropWhile p = [] := by
  induction xs with
  | nil => simp [List.takeWhile, List.dropWhile]
  | cons x t ih =>
    have hx := h x (List.mem_cons_self x t)
    have ht := ih (fun a ha => h a (List.mem_cons_of_mem _ ha))
    rw [List.takeWhile_cons, List.dropWhile_cons]
    simp [hx, ht.1, ht.2]

theorem isPrefixOf_length_le {a b : List Nat} (h : a.isPrefixOf b = true) :
    a.length ≤ b.length := by
  induction a generalizing b with
  | nil => simp
  | cons x t ih =>
    cases b with
    | nil => simp [List.isPrefixOf] at h
    | cons y u =>
      simp only [List.isPrefixOf, Bool.and_eq_true, beq_iff_eq] at h
      simpa using ih h.2

/-!
## C1 — codec round-trip
-/

theorem hexVal_hexU : ∀ d, d < 16 → hexVal (hexU d) = some d := by decide

theorem percentDecode_cons_of_ne {c : Nat} (hc : ¬ c = 37) (t : List Nat) :
    percentDecode (c :: t) = (percentDecode t).map (fun r => c :: r) := by
  rw [percentDecode.eq_def]
  simp [hc]

theorem percentDecode_encode (u : List Nat) (h : ∀ c ∈ u, c < 256) :
    percentDecode (encodeURIComponent u) = some u := by
  induction u with
  | nil => rfl
  | cons b t ih =>
    have hb : b < 256 := h b (List.mem_cons_self b t)
    have ht := ih (fun c hc => h c (List.mem_cons_of_mem _ hc))
    by_cases hu : uriUnreserved b = true
    · have hb37 : ¬ b = 37 := by
        intro hEq; rw [hEq] at hu; exact absurd hu (by decide)
      rw [encodeURIComponent, if_pos hu, List.singleton_append,
        percentDecode_cons_of_ne hb37, ht]
      rfl
    · have h1 : hexVal (hexU (b / 16)) = some (b / 16) := hexVal_hexU _ (by omega)
      have h2 : hexVal (hexU (b % 16)) = some (b % 16) := hexVal_hexU _ (by omega)
      have h3 : 16 * (b / 16) + b % 16 = b := by omega
      rw [encodeURIComponent, if_neg hu]
      show percentDecode (37 :: hexU (b / 16) :: hexU (b % 16) :: encodeURIComponent t) = _
      rw [percentDecode.eq_def]
      simp [h1, h2, h3, ht]

theorem utf8Valid_cons_ascii {b : Nat} (hb : b < 128) (t : List Nat) :
    utf8Valid (b :: t) = utf8Valid t := by
  rw [utf8Valid.eq_def]
  simp [hb]

theorem utf8Valid_ascii (u : List Nat) (h : ∀ c ∈ u, c < 128) : utf8Valid u = true := by
  induction u with
  | nil => rfl
  | cons b t ih =>
    have hb : b < 128 := h b (List.mem_cons_self b t)
    have ht := ih (fun c hc => h c (List.mem_cons_of_mem _ hc))
    rw [utf8Valid_cons_ascii hb, ht]

theorem encodeURIComponent_ne_nil {u : List Nat} (h : u ≠ []) :
    encodeURIComponent u ≠ [] := by
  cases u with
  | nil => exact absurd rfl h
  | cons b t =>
    by_cases hu : uriUnreserved b = true <;> simp [encodeURIComponent, hu]

/-- C1 (confirmed): encoding a valid absolute URL string into its proxied
path (`/service/` plus `encodeURIComponent`) and decoding that path with
the dispatcher's decode stage (strip the route prefix, then
`decodeURIComponent`) yields exactly the original string.  Valid absolute
URL strings are ASCII (the `URL` serializer percent-encodes or punycodes
everything else), which the first hypothesis captures. -/
theorem codec_round_trip (u : List Nat) (hAscii : ∀ c ∈ u, c < 128)
    (hUrl : (parseURL u).isSome = true) :
    decodeProxiedPath (toProxiedPath u) = some u := by
  have hne : u ≠ [] := by
    intro hEq
    rw [hEq] at hUrl
    exact absurd hUrl (by decide)
  have henc : encodeURIComponent u ≠ [] := encodeURIComponent_ne_nil hne
  have hdecode : decodeURIComponent (encodeURIComponent u) = some u := by
    unfold decodeURIComponent
    rw [percentDecode_encode u (fun c hc => Nat.lt_of_lt_of_le (hAscii c hc) (by omega))]
    simp [utf8Valid_ascii u hAscii]
  unfold decodeProxiedPath toProxiedPath
  rw [isPrefixOf_self_append, List.drop_left]
  simp only [if_true]
  rw [if_neg (by simpa using henc)]
  exact hdecode

/-- Witness for C1 at `https://example.com/`. -/
theorem codec_round_trip_wit :
    decodeProxiedPath (toProxiedPath (asc "https://example.com/")) =
      some (asc "https://example.com/") :=
  codec_round_trip _ (by decide) (by decide)

/-!
## C5 — URL Resolver on absolute input

The claim says an already-absolute reference is returned
character-for-character unchanged.  The source returns
`new URL(rel, base).toString()`, which re-serializes the parsed
reference: `https://example.com` comes back as `https://example.com/`.
-/

/-- C5 counterexample: the absolute reference `https://example.com` is
not returned unchanged — the resolver returns its normalized
serialization `https://example.com/`. -/
theorem resolveUrl_absolute_cex :
    resolveUrl (asc "https://proxy.test/") (asc "https://example.com") =
      asc "https://example.com/" ∧
    asc "https://example.com/" ≠ asc "https://example.com" :=
  ⟨by decide, by decide⟩

/-- C5 (amended): for a reference that parses as an absolute URL,
`resolveUrl` returns its parse re-serialized, independently of the base;
in particular the reference is returned unchanged exactly when it is
already in serialized normal form. -/
theorem resolveUrl_absolute_normalizes (base rel : List Nat) (u : Url)
    (h : parseURL rel = some u) :
    resolveUrl base rel = serializeURL u ∧
      (serializeURL u = rel → resolveUrl base rel = rel) := by
  unfold resolveUrl
  rw [h]
  exact ⟨rfl, fun h2 => h2⟩

/-- Witness for C5 (amended) at `https://example.com/a`, a reference in
normal form, with base `https://proxy.test/`. -/
theorem resolveUrl_absolute_normalizes_wit :
    resolveUrl (asc "https://proxy.test/") (asc "https://example.com/a") =
      asc "https://example.com/a" :=
  (resolveUrl_absolute_normalizes (asc "https://proxy.test/") (asc "https://example.com/a")
    ⟨asc "https", asc "example.com", none, asc "/a", none, none⟩ (by decide)).2 (by decide)

/-!
## Header-set lemmas
-/

theorem filter_delete_self_nil (n : List Nat) (h : List (List Nat × List Nat)) :
    (headersDelete n h).filter (fun e => lowerL e.1 == lowerL n) = [] := by
  unfold headersDelete
  induction h with
  | nil => rfl
  | cons e t ih =>
    rw [List.filter_cons]
    by_cases hc : (lowerL e.1 == lowerL n) = true
    · simp only [hc, Bool.not_true, if_false]
      exact ih
    · have hc' : (lowerL e.1 == lowerL n) = false := by
        revert hc; cases (lowerL e.1 == lowerL n) <;> simp
      simp only [hc', Bool.not_false, if_true, List.filter_cons, hc']
      exact ih

theorem headersHas_delete_self (n : List Nat) (h : List (List Nat × List Nat)) :
    headersHas n (headersDelete n h) = false := by
  unfold headersHas headersDelete
  induction h with
  | nil => rfl
  | cons e t ih =>
    rw [List.filter_cons]
    by_cases hc : (lowerL e.1 == lowerL n) = true
    · simp only [hc, Bool.not_true, if_false]
      exact ih
    · have hc' : (lowerL e.1 == lowerL n) = false := by
        revert hc; cases (lowerL e.1 == lowerL n) <;> simp
    
      simp only [hc', Bool.not_false, if_true, List.any_cons, hc', Bool.false_or]
      exact ih

theorem filter_delete_comm {n m : List Nat} (hne : lowerL n ≠ lowerL m)
    (h : List (List Nat × List Nat)) :
    (headersDelete m h).filter (fun e => lowerL e.1 == lowerL n) =
      h.filter (fun e => lowerL e.1 == lowerL n) := by
  unfold headersDelete
  induction h with
  | nil => rfl
  | cons e t ih =>
    rw [List.filter_cons]
    by_cases hc : (lowerL e.1 == lowerL m) = true
    · have hem : lowerL e.1 = lowerL m := by simpa using hc
      have hen : (lowerL e.1 == lowerL n) = false := by
        simp [hem]
        exact fun hEq => hne hEq.symm
      simp only [hc, Bool.not_true, if_false, List.filter_cons, hen, if_false]
      exact ih
    · have hc' : (lowerL e.1 == lowerL m) = false := by
        revert hc; cases (lowerL e.1 == lowerL m) <;> simp
      simp only [hc', Bool.not_false, if_true, List.filter_cons]
      rw [ih]

theorem filter_set_comm {n m : List Nat} (hne : lowerL n ≠ lowerL m) (v : List Nat)
    (h : List (List Nat × List Nat)) :
    (headersSet m v h).filter (fun e => lowerL e.1 == lowerL n) =
      h.filter (fun e => lowerL e.1 == lowerL n) := by
  induction h with
  | nil =>
    have : (lowerL m == lowerL n) = false := by
      simp
      exact fun hEq => hne hEq.symm
    simp [headersSet, List.filter_cons, this]
  | cons e t ih =>
    rw [headersSet]
    by_cases hc : (lowerL e.1 == lowerL m) = true
    · have hem : lowerL e.1 = lowerL m := by simpa using hc
      have hen : (lowerL e.1 == lowerL n) = false := by
        simp [hem]
        exact fun hEq => hne hEq.symm
      have hmn : (lowerL m == lowerL n) = false := by
        simp
        exact fun hEq => hne hEq.symm
      simp only [hc, if_true, List.filter_cons, hmn, if_false, hen]
      exact filter_delete_comm hne t
    · have hc' : (lowerL e.1 == lowerL m) = false := by
        revert hc; cases (lowerL e.1 == lowerL m) <;> simp
      simp [hc', List.filter_cons, ih]

theorem headersGet_delete_ne {n m : List Nat} (hne : lowerL n ≠ lowerL m)
    (h : List (List Nat × List Nat)) :
    headersGet n (headersDelete m h) = headersGet n h := by
  unfold headersGet
  rw [show (headersDelete m h).filter (fun e => lowerL e.1 == lowerL n) =
      h.filter (fun e => lowerL e.1 == lowerL n) from filter_delete_comm hne h]

theorem headersGet_set_ne {n m : List Nat} (hne : lowerL n ≠ lowerL m) (v : List Nat)
    (h : List (List Nat × List Nat)) :
    headersGet n (headersSet m v h) = headersGet n h := by
  unfold headersGet
  rw [show (headersSet m v h).filter (fun e => lowerL e.1 == lowerL n) =
      h.filter (fun e => lowerL e.1 == lowerL n) from filter_set_comm hne v h]

theorem headersGet_set_self (n v : List Nat) (h : List (List Nat × List Nat)) :
    headersGet n (headersSet n v h) = some v := by
  have hfilter : (headersSet n v h).filter (fun e => lowerL e.1 == lowerL n) = [(n, v)] := by
    induction h with
    | nil => simp [headersSet, List.filter_cons]
    | cons e t ih =>
      rw [headersSet]
      by_cases hc : (lowerL e.1 == lowerL n) = true
      · simp only [hc, if_true, List.filter_cons, beq_self_eq_true, if_true]
        rw [filter_delete_self_nil]
      · have hc' : (lowerL e.1 == lowerL n) = false := by
          revert hc; cases (lowerL e.1 == lowerL n) <;> simp
        simp [hc', List.filter_cons, ih]
  unfold headersGet
  rw [hfilter]
  rfl

theorem headersHas_of_filter {n : List Nat} {h : List (List Nat × List Nat)} :
    headersHas n h = !(h.filter (fun e => lowerL e.1 == lowerL n)).isEmpty := by
  unfold headersHas
  induction h with
  | nil => rfl
  | cons e t ih =>
    rw [List.any_cons, List.filter_cons]
    by_cases hc : (lowerL e.1 == lowerL n) = true
    · simp [hc]
    · have hc' : (lowerL e.1 == lowerL n) = false := by
        revert hc; cases (lowerL e.1 == lowerL n) <;> simp
      simp only [hc', Bool.false_or, if_false]
      exact ih

theorem headersHas_delete_ne {n m : List Nat} (hne : lowerL n ≠ lowerL m)
    (h : List (List Nat × List Nat)) :
    headersHas n (headersDelete m h) = headersHas n h := by
  rw [headersHas_of_filter, headersHas_of_filter, filter_delete_comm hne]

theorem headersHas_set_ne {n m : List Nat} (hne : lowerL n ≠ lowerL m) (v : List Nat)
    (h : List (List Nat × List Nat)) :
    headersHas n (headersSet m v h) = headersHas n h := by
  rw [headersHas_of_filter, headersHas_of_filter, filter_set_comm hne]

theorem headersHas_condDelete_self (n : List Nat) (h : List (List Nat × List Nat)) :
    headersHas n (if headersHas n h then headersDelete n h else h) = false := by
  by_cases hc : headersHas n h = true
  · rw [if_pos hc]
    exact headersHas_delete_self n h
  · rw [if_neg hc]
    revert hc; cases headersHas n h <;> simp

theorem headersHas_condDelete_ne {n m : List Nat} (hne : lowerL n ≠ lowerL m)
    (h : List (List Nat × List Nat)) :
    headersHas n (if headersHas m h then headersDelete m h else h) = headersHas n h := by
  by_cases hc : headersHas m h = true
  · rw [if_pos hc, headersHas_delete_ne hne]
  · rw [if_neg hc]

theorem headersGet_condDelete_ne {n m : List Nat} (hne : lowerL n ≠ lowerL m)
    (h : List (List Nat × List Nat)) :
    headersGet n (if headersHas m h then headersDelete m h else h) = headersGet n h := by
  by_cases hc : headersHas m h = true
  · rw [if_pos hc, headersGet_delete_ne hne]
  · rw [if_neg hc]

/-!
## C3 — Header Sanitizer removal set

`sanitizeHeaders` (part_000) removes all four headers, but
`sanitizeHeadersInPlace` (worker.js) never touches
`x-content-type-options`, so the claim's removal set is wrong for that
variant.
-/

theorem sanitizeHeadersCore_props (h : List (List Nat × List Nat)) :
    headersHas (asc "content-security-policy") (sanitizeHeadersCore h) = false ∧
    headersHas (asc "content-security-policy-report-only") (sanitizeHeadersCore h) = false ∧
    headersHas (asc "x-frame-options") (sanitizeHeadersCore h) = false ∧
    headersHas (asc "x-content-type-options") (sanitizeHeadersCore h) = false ∧
    headersGet (asc "access-control-allow-origin") (sanitizeHeadersCore h) = some (asc "*") ∧
    headersGet (asc "access-control-allow-headers") (sanitizeHeadersCore h) = some (asc "*") ∧
    headersGet (asc "access-control-allow-methods") (sanitizeHeadersCore h) =
      some (asc "GET,POST,PUT,PATCH,DELETE,OPTIONS") := by
  simp only [sanitizeHeadersCore]
  refine ⟨?_, ?_, ?_, ?_, ?_, ?_, ?_⟩
  · rw [headersHas_condDelete_ne (by decide), headersHas_condDelete_ne (by decide),
      headersHas_set_ne (by decide), headersHas_set_ne (by decide),
      headersHas_set_ne (by decide), headersHas_condDelete_ne (by decide),
      headersHas_condDelete_self]
  · rw [headersHas_condDelete_ne (by decide), headersHas_condDelete_ne (by decide),
      headersHas_set_ne (by decide), headersHas_set_ne (by decide),
      headersHas_set_ne (by decide), headersHas_condDelete_self]
  · rw [headersHas_condDelete_ne (by decide), headersHas_condDelete_self]
  · rw [headersHas_condDelete_self]
  · rw [headersGet_condDelete_ne (by decide), headersGet_condDelete_ne (by decide),
      headersGet_set_ne (by decide), headersGet_set_ne (by decide),
      headersGet_set_self]
  · rw [headersGet_condDelete_ne (by decide), headersGet_condDelete_ne (by decide),
      headersGet_set_ne (by decide), headersGet_set_self]
  · rw [headersGet_condDelete_ne (by decide), headersGet_condDelete_ne (by decide),
      headersGet_set_self]

theorem sanitizeHeaders_eq_core_or_set (h : List (List Nat × List Nat)) (b : Bool) :
    sanitizeHeaders h b = sanitizeHeadersCore h ∨
      sanitizeHeaders h b =
        headersSet (asc "content-type") (asc "text/html; charset=utf-8")
          (sanitizeHeadersCore h) := by
  simp only [sanitizeHeaders]
  cases b
  · simp
  · simp only [if_true]
    split
    · exact Or.inl rfl
    · exact Or.inr rfl

/-- C3 counterexample: `sanitizeHeadersInPlace` leaves
`x-content-type-options: nosniff` in its output. -/
theorem sanitizeHeadersInPlace_keeps_xcto_cex :
    headersHas (asc "x-content-type-options")
        (sanitizeHeadersInPlace [(asc "x-content-type-options", asc "nosniff")]) = true ∧
      headersGet (asc "x-content-type-options")
        (sanitizeHeadersInPlace [(asc "x-content-type-options", asc "nosniff")]) =
        some (asc "nosniff") :=
  ⟨by decide, by decide⟩

/-- C3 (amended): for every input header set, part_000's
`sanitizeHeaders` output contains none of the two CSP headers,
`x-frame-options`, or `x-content-type-options` and carries the three
forced CORS headers; worker.js's `sanitizeHeadersInPlace` output
likewise lacks the two CSP headers and `x-frame-options` and carries the
forced CORS headers, but its `x-content-type-options` entries are
exactly those of the input (the claim's removal of that header fails for
this variant). -/
theorem sanitizer_removal_sets (h : List (List Nat × List Nat)) (b : Bool) :
    (headersHas (asc "content-security-policy") (sanitizeHeaders h b) = false ∧
     headersHas (asc "content-security-policy-report-only") (sanitizeHeaders h b) = false ∧
     headersHas (asc "x-frame-options") (sanitizeHeaders h b) = false ∧
     headersHas (asc "x-content-type-options") (sanitizeHeaders h b) = false ∧
     headersGet (asc "access-control-allow-origin") (sanitizeHeaders h b) = some (asc "*") ∧
     headersGet (asc "access-control-allow-headers") (sanitizeHeaders h b) = some (asc "*") ∧
     headersGet (asc "access-control-allow-methods") (sanitizeHeaders h b) =
       some (asc "GET,POST,PUT,PATCH,DELETE,OPTIONS")) ∧
    (headersHas (asc "content-security-policy") (sanitizeHeadersInPlace h) = false ∧
     headersHas (asc "content-security-policy-report-only") (sanitizeHeadersInPlace h) = false ∧
     headersHas (asc "x-frame-options") (sanitizeHeadersInPlace h) = false ∧
     headersGet (asc "access-control-allow-origin") (sanitizeHeadersInPlace h) = some (asc "*") ∧
     headersGet (asc "access-control-allow-headers") (sanitizeHeadersInPlace h) = some (asc "*") ∧
     headersGet (asc "access-control-allow-methods") (sanitizeHeadersInPlace h) =
       some (asc "GET,POST,PUT,PATCH,DELETE,OPTIONS") ∧
     headersGet (asc "x-content-type-options") (sanitizeHeadersInPlace h) =
       headersGet (asc "x-content-type-options") h) := by
  constructor
  · obtain hcore := sanitizeHeadersCore_props h
    rcases sanitizeHeaders_eq_core_or_set h b with heq | heq <;> rw [heq]
    · exact hcore
    · refine ⟨?_, ?_, ?_, ?_, ?_, ?_, ?_⟩
      · rw [headersHas_set_ne (by decide)]; exact hcore.1
      · rw [headersHas_set_ne (by decide)]; exact hcore.2.1
      · rw [headersHas_set_ne (by decide)]; exact hcore.2.2.1
      · rw [headersHas_set_ne (by decide)]; exact hcore.2.2.2.1
      · rw [headersGet_set_ne (by decide)]; exact hcore.2.2.2.2.1
      · rw [headersGet_set_ne (by decide)]; exact hcore.2.2.2.2.2.1
      · rw [headersGet_set_ne (by decide)]; exact hcore.2.2.2.2.2.2
  · unfold sanitizeHeadersInPlace
    refine ⟨?_, ?_, ?_, ?_, ?_, ?_, ?_⟩
    · rw [headersHas_set_ne (by decide), headersHas_set_ne (by decide),
        headersHas_set_ne (by decide), headersHas_delete_ne (by decide),
        headersHas_delete_ne (by decide), headersHas_delete_self]
    · rw [headersHas_set_ne (by decide), headersHas_set_ne (by decide),
        headersHas_set_ne (by decide), headersHas_delete_ne (by decide),
        headersHas_delete_self]
    · rw [headersHas_set_ne (by decide), headersHas_set_ne (by decide),
        headersHas_set_ne (by decide), headersHas_delete_self]
    · rw [headersGet_set_ne (by decide), headersGet_set_ne (by decide),
        headersGet_set_self]
    · rw [headersGet_set_ne (by decide), headersGet_set_self]
    · rw [headersGet_set_self]
    · rw [headersGet_set_ne (by decide), headersGet_set_ne (by decide),
        headersGet_set_ne (by decide), headersGet_delete_ne (by decide),
        headersGet_delete_ne (by decide), headersGet_delete_ne (by decide)]

/-!
## Dispatcher reduction helpers
-/

theorem workerDispatch_decode (origin pathname t : List Nat)
    (T : List Nat → Except (List Nat) Upstream) (hT : List Nat → List Nat → List Nat)
    (hpre : (asc "/service/").isPrefixOf pathname = true)
    (henc : (pathname.drop (asc "/service/").length).isEmpty = false)
    (hdec : decodeURIComponent (pathname.drop (asc "/service/").length) = some t) :
    workerDispatch origin pathname T hT = workerAfterDecode origin t T hT := by
  unfold workerDispatch
  rw [if_pos hpre, if_neg (by simp [henc]), hdec]

theorem uv_not_root_of_route {pathname : List Nat}
    (hpre : (asc "/service/").isPrefixOf pathname = true) :
    ¬ (pathname = asc "/" ∨ pathname = asc "") := by
  rintro (h | h) <;> rw [h] at hpre <;> exact absurd hpre (by decide)

theorem uvDispatch_decode (origin pathname t : List Nat)
    (T : List Nat → Except (List Nat) Upstream) (hT : List Nat → List Nat → List Nat)
    (hpre : (asc "/service/").isPrefixOf pathname = true)
    (henc : (pathname.drop (asc "/service/").length).isEmpty = false)
    (hdec : decodeURIComponent (pathname.drop (asc "/service/").length) = some t) :
    uvDispatch origin pathname T hT = uvAfterDecode origin t T hT := by
  unfold uvDispatch
  rw [if_neg (uv_not_root_of_route hpre), if_neg (by simp [hpre]),
    if_neg (by simp [henc]), hdec]

theorem workerHandleUpstream_fetched (target : List Nat) (up : Upstream)
    (hT : List Nat → List Nat → List Nat) :
    (workerHandleUpstream target up hT).fetched = some target := by
  simp only [workerHandleUpstream]
  split
  · split <;> rfl
  · split
    · split <;> rfl
    · rfl

theorem uvServe_fetched (target : List Nat) (up : Upstream)
    (hT : List Nat → List Nat → List Nat) :
    (uvServe target up hT).fetched = some target := by
  simp only [uvServe]
  split
  · split <;> rfl
  · rfl

theorem replaceFirst_at_start {s pat : List Nat} (h : pat.isPrefixOf s = true) :
    replaceFirst s pat = s.drop pat.length := by
  cases s with
  | nil =>
    cases pat with
    | nil => rfl
    | cons x t => exact absurd h (by simp [List.isPrefixOf])
  | cons c t =>
    unfold replaceFirst
    rw [if_pos h]

/-!
## C2 — recursion guard

The source guard is `target.startsWith(url.origin)`, a *string-prefix*
test on the decoded target, not an origin-equality test.  A target such
as `https://a.community/x` has origin `https://a.community`, different
from a proxy origin `https://a.com`, yet the guard refuses it.
-/

/-- C2 counterexample: with proxy origin `https://a.com`, the decoded
target `https://a.community/x` — whose parsed origin
`https://a.community` differs from the proxy's — is nevertheless refused
with 400 and no outbound fetch, contradicting the claim's "conversely"
direction. -/
theorem recursion_guard_cex :
    (parseURL (asc "https://a.community/x")).map originString =
        some (asc "https://a.community") ∧
      asc "https://a.community" ≠ asc "https://a.com" ∧
      workerDispatch (asc "https://a.com") (asc "/service/https%3A%2F%2Fa.community%2Fx")
          (fun _ => .error []) (fun _ b => b) =
        ⟨some ⟨400, asc "Refusing to proxy worker origin", []⟩, none⟩ :=
  ⟨by decide, by decide, by decide⟩

/-- C2 (amended): the guard is a string-prefix test: after a successful
decode, both dispatchers respond 400 and issue no outbound fetch exactly
when the proxy's origin string is a prefix of the decoded target string,
and otherwise proceed to the outbound fetch of the decoded target —
regardless of the targets' parsed origins. -/
theorem recursion_guard_startsWith (origin pathname t : List Nat)
    (T : List Nat → Except (List Nat) Upstream) (hT : List Nat → List Nat → List Nat)
    (hpre : (asc "/service/").isPrefixOf pathname = true)
    (henc : (pathname.drop (asc "/service/").length).isEmpty = false)
    (hdec : decodeURIComponent (pathname.drop (asc "/service/").length) = some t) :
    (origin.isPrefixOf t = true →
      workerDispatch origin pathname T hT =
          ⟨some ⟨400, asc "Refusing to proxy worker origin", []⟩, none⟩ ∧
        uvDispatch origin pathname T hT =
          ⟨some ⟨400, asc "Refusing to proxy this origin", []⟩, none⟩) ∧
    (origin.isPrefixOf t = false →
      (workerDispatch origin pathname T hT).fetched = some t ∧
        (uvDispatch origin pathname T hT).fetched = some t) := by
  rw [workerDispatch_decode origin pathname t T hT hpre henc hdec,
    uvDispatch_decode origin pathname t T hT hpre henc hdec]
  constructor
  · intro hg
    unfold workerAfterDecode uvAfterDecode
    rw [if_pos hg, if_pos hg]
    exact ⟨rfl, rfl⟩
  · intro hg
    unfold workerAfterDecode uvAfterDecode
    rw [if_neg (by simp [hg]), if_neg (by simp [hg])]
    cases hTt : T t with
    | error e => exact ⟨rfl, rfl⟩
    | ok up =>
      refine ⟨workerHandleUpstream_fetched t up hT, ?_⟩
      by_cases hop : up.isOpaque = true
      · simp [hop]
      · simp only [Bool.not_eq_true] at hop
        simp [hop, uvServe_fetched t up hT]

/-- Witness for C2 (amended), exercising the refusal direction at a
self-targeting request. -/
theorem recursion_guard_startsWith_wit :
    workerDispatch (asc "https://w.dev") (asc "/service/https%3A%2F%2Fw.dev%2Fx")
        (fun _ => .error []) (fun _ b => b) =
      ⟨some ⟨400, asc "Refusing to proxy worker origin", []⟩, none⟩ :=
  ((recursion_guard_startsWith (asc "https://w.dev")
      (asc "/service/https%3A%2F%2Fw.dev%2Fx") (asc "https://w.dev/x")
      (fun _ => .error []) (fun _ b => b)
      (by decide) (by decide) (by decide)).1 (by decide)).1

/-!
## C4 — upstream fetch failure

worker.js and part_000 answer a thrown transport error with
502 `Upstream fetch error: <err>`; index.js answers with
500 `Error fetching target: <err>` — not 502 as the claim states.
-/

/-- C4 counterexample: index.js's dispatcher answers a transport failure
with status 500, not 502 (the error text is still embedded). -/
theorem upstream_fetch_error_cex :
    indexDispatch (asc "/service/https%3A%2F%2Fa.com%2F") (fun _ => .error (asc "boom")) =
        ⟨some ⟨500, asc "Error fetching target: boom", []⟩, some (asc "https://a.com/")⟩ ∧
      (500 : Nat) ≠ 502 :=
  ⟨by decide, by decide⟩

/-- C4 (amended): for a request whose target decodes successfully and
passes the recursion guard, a thrown transport fetch answers with a
plain-text body embedding the error text — with status 502 in worker.js
and part_000, but status 500 in index.js (which has no guard and a
different message prefix). -/
theorem upstream_fetch_error_statuses (origin pathname t e : List Nat)
    (T : List Nat → Except (List Nat) Upstream) (hT : List Nat → List Nat → List Nat)
    (hpre : (asc "/service/").isPrefixOf pathname = true)
    (henc : (pathname.drop (asc "/service/").length).isEmpty = false)
    (hdec : decodeURIComponent (pathname.drop (asc "/service/").length) = some t)
    (hguard : origin.isPrefixOf t = false)
    (hTt : T t = .error e) :
    workerDispatch origin pathname T hT =
        ⟨some ⟨502, asc "Upstream fetch error: " ++ e, []⟩, some t⟩ ∧
      uvDispatch origin pathname T hT =
        ⟨some ⟨502, asc "Upstream fetch error: " ++ e, []⟩, some t⟩ ∧
      indexDispatch pathname T =
        ⟨some ⟨500, asc "Error fetching target: " ++ e, []⟩, some t⟩ := by
  rw [workerDispatch_decode origin pathname t T hT hpre henc hdec,
    uvDispatch_decode origin pathname t T hT hpre henc hdec]
  unfold workerAfterDecode uvAfterDecode
  rw [if_neg (by simp [hguard]), if_neg (by simp [hguard]), hTt]
  refine ⟨rfl, rfl, ?_⟩
  unfold indexDispatch
  rw [if_pos hpre, replaceFirst_at_start hpre, hdec]
  simp [hTt]

/-- Witness for C4 (amended) at a concrete failing transport. -/
theorem upstream_fetch_error_statuses_wit :
    workerDispatch (asc "https://w.dev") (asc "/service/https%3A%2F%2Fa.com%2F")
        (fun _ => .error (asc "boom")) (fun _ b => b) =
      ⟨some ⟨502, asc "Upstream fetch error: boom", []⟩, some (asc "https://a.com/")⟩ :=
  (upstream_fetch_error_statuses (asc "https://w.dev") (asc "/service/https%3A%2F%2Fa.com%2F")
      (asc "https://a.com/") (asc "boom") (fun _ => .error (asc "boom")) (fun _ b => b)
      (by decide) (by decide) (by decide) (by decide) rfl).1

/-!
## C9 — unmatched-path response

worker.js and index.js answer any path outside the route prefix with a
200 usage string; part_000 answers 200 only on `/` (or the empty
`WORKER_BASE`) and 404 on every other unmatched path.
-/

/-- C9 counterexample: part_000 answers the unmatched path `/foo` with
status 404, not 200. -/
theorem unmatched_path_cex :
    uvDispatch (asc "https://w.dev") (asc "/foo") (fun _ => .error []) (fun _ b => b) =
        ⟨some ⟨404, asc "Not found. Use /service/<encodedURL>", []⟩, none⟩ ∧
      (404 : Nat) ≠ 200 :=
  ⟨by decide, by decide⟩

/-- C9 (amended): on a path that does not start with the route prefix no
dispatcher issues an outbound fetch; worker.js and index.js respond 200
with their usage strings, while part_000 responds 200 only for `/` (or
the empty path) and 404 otherwise. -/
theorem unmatched_path_responses (origin pathname : List Nat)
    (T : List Nat → Except (List Nat) Upstream) (hT : List Nat → List Nat → List Nat)
    (hpre : (asc "/service/").isPrefixOf pathname = false) :
    workerDispatch origin pathname T hT =
        ⟨some ⟨200, asc "Boat Proxy Worker ready. Use /service/<encodedURL>", []⟩, none⟩ ∧
      indexDispatch pathname T =
        ⟨some ⟨200, asc "Ultraviolet Worker running. Use /service/<url>", []⟩, none⟩ ∧
      uvDispatch origin pathname T hT =
        (if pathname = asc "/" ∨ pathname = asc "" then
          ⟨some ⟨200, asc "Ultraviolet-style Worker: use /service/<encodedURL>", []⟩, none⟩
        else ⟨some ⟨404, asc "Not found. Use /service/<encodedURL>", []⟩, none⟩) := by
  refine ⟨?_, ?_, ?_⟩
  · unfold workerDispatch
    rw [if_neg (by simp [hpre])]
  · unfold indexDispatch
    rw [if_neg (by simp [hpre])]
  · unfold uvDispatch
    by_cases hroot : pathname = asc "/" ∨ pathname = asc ""
    · rw [if_pos hroot, if_pos hroot]
    · rw [if_neg hroot, if_neg hroot, if_pos (by simp [hpre])]

/-- Witness for C9 (amended) at the unmatched path `/x`. -/
theorem unmatched_path_responses_wit :
    workerDispatch (asc "https://w.dev") (asc "/x") (fun _ => .error []) (fun _ b => b) =
      ⟨some ⟨200, asc "Boat Proxy Worker ready. Use /service/<encodedURL>", []⟩, none⟩ :=
  (unmatched_path_responses (asc "https://w.dev") (asc "/x") (fun _ => .error [])
    (fun _ b => b) (by decide)).1

/-!
## C6 — conditional HTML content-type normalization

part_000's `sanitizeHeaders` implements the conditional overwrite the
claim describes; worker.js's dispatcher instead always sets
`content-type: text/html; charset=utf-8` on the HTML path, even when the
upstream value already indicates HTML.
-/

theorem headersGet_ct_core (h : List (List Nat × List Nat)) :
    headersGet (asc "content-type") (sanitizeHeadersCore h) =
      headersGet (asc "content-type") h := by
  simp only [sanitizeHeadersCore]
  rw [headersGet_condDelete_ne (by decide), headersGet_condDelete_ne (by decide),
    headersGet_set_ne (by decide), headersGet_set_ne (by decide),
    headersGet_set_ne (by decide), headersGet_condDelete_ne (by decide),
    headersGet_condDelete_ne (by decide)]

theorem headersGet_core_ne {n : List Nat} (h : List (List Nat × List Nat))
    (h1 : lowerL n ≠ lowerL (asc "content-security-policy"))
    (h2 : lowerL n ≠ lowerL (asc "content-security-policy-report-only"))
    (h3 : lowerL n ≠ lowerL (asc "access-control-allow-origin"))
    (h4 : lowerL n ≠ lowerL (asc "access-control-allow-headers"))
    (h5 : lowerL n ≠ lowerL (asc "access-control-allow-methods"))
    (h6 : lowerL n ≠ lowerL (asc "x-frame-options"))
    (h7 : lowerL n ≠ lowerL (asc "x-content-type-options")) :
    headersGet n (sanitizeHeadersCore h) = headersGet n h := by
  simp only [sanitizeHeadersCore]
  rw [headersGet_condDelete_ne h7, headersGet_condDelete_ne h6,
    headersGet_set_ne h5, headersGet_set_ne h4, headersGet_set_ne h3,
    headersGet_condDelete_ne h2, headersGet_condDelete_ne h1]

/-- C6 counterexample: an upstream `content-type: text/html;
charset=iso-8859-1` already indicates HTML, yet worker.js's HTML path
overwrites it with `text/html; charset=utf-8`. -/
theorem html_content_type_cex :
    containsSub (lowerL (asc "text/html; charset=iso-8859-1")) (asc "text/html") = true ∧
      ((workerDispatch (asc "https://w.dev") (asc "/service/https%3A%2F%2Fa.com%2F")
          (fun _ => .ok ⟨200, [(asc "content-type", asc "text/html; charset=iso-8859-1")],
            asc "<p>", false⟩)
          (fun _ b => b)).resp.bind
        (fun r => headersGet (asc "content-type") r.headers)) =
        some (asc "text/html; charset=utf-8") ∧
      asc "text/html; charset=utf-8" ≠ asc "text/html; charset=iso-8859-1" :=
  ⟨by decide, by decide, by decide⟩

/-- C6 (amended): part_000's `sanitizeHeaders` with the HTML flag leaves
a `content-type` that already matches `/text\/html/i` unchanged,
overwrites a non-matching one with `text/html; charset=utf-8`, and
alters no header outside the enumerated edits; worker.js's dispatcher
instead sets `content-type: text/html; charset=utf-8` unconditionally
whenever it serves a rewritten HTML body. -/
theorem html_content_type_normalization :
    (∀ (h : List (List Nat × List Nat)) (ct0 : List Nat),
      headersGet (asc "content-type") h = some ct0 →
      containsSub (lowerL ct0) (asc "text/html") = true →
      headersGet (asc "content-type") (sanitizeHeaders h true) = some ct0) ∧
    (∀ (h : List (List Nat × List Nat)) (ct0 : List Nat),
      headersGet (asc "content-type") h = some ct0 →
      containsSub (lowerL ct0) (asc "text/html") = false →
      headersGet (asc "content-type") (sanitizeHeaders h true) =
        some (asc "text/html; charset=utf-8")) ∧
    (∀ (n : List Nat) (h : List (List Nat × List Nat)) (b : Bool),
      lowerL n ≠ lowerL (asc "content-security-policy") →
      lowerL n ≠ lowerL (asc "content-security-policy-report-only") →
      lowerL n ≠ lowerL (asc "access-control-allow-origin") →
      lowerL n ≠ lowerL (asc "access-control-allow-headers") →
      lowerL n ≠ lowerL (asc "access-control-allow-methods") →
      lowerL n ≠ lowerL (asc "x-frame-options") →
      lowerL n ≠ lowerL (asc "x-content-type-options") →
      lowerL n ≠ lowerL (asc "content-type") →
      headersGet n (sanitizeHeaders h b) = headersGet n h) ∧
    (∀ (origin pathname t : List Nat) (T : List Nat → Except (List Nat) Upstream)
      (hT : List Nat → List Nat → List Nat) (up : Upstream) (trg : Url),
      (asc "/service/").isPrefixOf pathname = true →
      (pathname.drop (asc "/service/").length).isEmpty = false →
      decodeURIComponent (pathname.drop (asc "/service/").length) = some t →
      origin.isPrefixOf t = false →
      T t = .ok up →
      containsSub (lowerL ((headersGet (asc "content-type") up.headers).getD []))
        (asc "text/html") = true →
      parseURL t = some trg →
      workerDispatch origin pathname T hT =
        ⟨some ⟨up.status, hT (serializeURL trg) up.body,
          headersSet (asc "content-type") (asc "text/html; charset=utf-8")
            (sanitizeHeadersInPlace up.headers)⟩, some t⟩ ∧
      headersGet (asc "content-type")
          (headersSet (asc "content-type") (asc "text/html; charset=utf-8")
            (sanitizeHeadersInPlace up.headers)) =
        some (asc "text/html; charset=utf-8")) := by
  refine ⟨?_, ?_, ?_, ?_⟩
  · intro h ct0 hget hcontains
    simp only [sanitizeHeaders]
    rw [if_pos trivial, headersGet_ct_core, hget, Option.getD_some, if_pos hcontains,
      headersGet_ct_core, hget]
  · intro h ct0 hget hcontains
    simp only [sanitizeHeaders]
    rw [if_pos trivial, headersGet_ct_core, hget, Option.getD_some,
      if_neg (by simp [hcontains]), headersGet_set_self]
  · intro n h b h1 h2 h3 h4 h5 h6 h7 h8
    simp only [sanitizeHeaders]
    cases b
    · rw [if_neg (by simp)]
      exact headersGet_core_ne h h1 h2 h3 h4 h5 h6 h7
    · rw [if_pos rfl]
      split
      · exact headersGet_core_ne h h1 h2 h3 h4 h5 h6 h7
      · rw [headersGet_set_ne h8]
        exact headersGet_core_ne h h1 h2 h3 h4 h5 h6 h7
  · intro origin pathname t T hT up trg hpre henc hdec hguard hok hct htrg
    constructor
    · rw [workerDispatch_decode origin pathname t T hT hpre henc hdec]
      unfold workerAfterDecode
      rw [if_neg (by simp [hguard]), hok]
      simp only [workerHandleUpstream]
      rw [if_pos hct, htrg]
    · exact headersGet_set_self _ _ _

/-- Witness for C6 (amended): an upstream `content-type` already
matching `/text\/html/i` survives part_000's sanitizer unchanged. -/
theorem html_content_type_normalization_wit :
    headersGet (asc "content-type")
        (sanitizeHeaders [(asc "content-type", asc "TEXT/HTML; charset=iso-8859-1")] true) =
      some (asc "TEXT/HTML; charset=iso-8859-1") :=
  html_content_type_normalization.1 _ _ (by decide) (by decide)

/-!
## C7 — srcset rewriting
-/

theorem splitChar_ne_nil (sep : Nat) (s : List Nat) : splitChar sep s ≠ [] := by
  cases s with
  | nil => simp [splitChar]
  | cons c r =>
    rw [splitChar]
    cases hs : splitChar sep r with
    | nil => dsimp only; split <;> simp
    | cons p ps => dsimp only; split <;> simp

theorem splitChar_no_sep {sep : Nat} {p : List Nat} (h : ∀ c ∈ p, ¬ c = sep) :
    splitChar sep p = [p] := by
  induction p with
  | nil => rfl
  | cons c r ih =>
    have hc := h c (List.mem_cons_self c r)
    have hr := ih (fun a ha => h a (List.mem_cons_of_mem _ ha))
    rw [splitChar, hr]
    dsimp only
    rw [if_neg hc]

theorem splitChar_append_sep {sep : Nat} {p : List Nat} (h : ∀ c ∈ p, ¬ c = sep)
    (rest : List Nat) :
    splitChar sep (p ++ sep :: rest) = p :: splitChar sep rest := by
  induction p with
  | nil =>
    rw [List.nil_append, splitChar]
    cases hs : splitChar sep rest with
    | nil => exact absurd hs (splitChar_ne_nil sep rest)
    | cons q qs => dsimp only; rw [if_pos rfl]
  | cons c r ih =>
    have hc := h c (List.mem_cons_self c r)
    have hr := ih (fun a ha => h a (List.mem_cons_of_mem _ ha))
    rw [List.cons_append, splitChar, hr]
    dsimp only
    rw [if_neg hc]

theorem splitChar_joinWith44 :
    ∀ ps : List (List Nat), ps ≠ [] → (∀ p ∈ ps, ∀ c ∈ p, ¬ c = 44) →
      splitChar 44 (joinWith [44] ps) = ps := by
  intro ps
  induction ps with
  | nil => intro h; exact absurd rfl h
  | cons x t ih =>
    intro _ hfree
    cases t with
    | nil => exact splitChar_no_sep (hfree x (List.mem_cons_self x []))
    | cons y u =>
      have hx : joinWith [44] (x :: y :: u) = x ++ 44 :: joinWith [44] (y :: u) := by
        rw [joinWith]
        simp [List.append_assoc]
      rw [hx, splitChar_append_sep (hfree x (List.mem_cons_self _ _)),
        ih (by simp) (fun p hp c hc => hfree p (List.mem_cons_of_mem _ hp) c hc)]

theorem cons32_joinWith (sep : List Nat) (y : List Nat) (ys : List (List Nat)) :
    joinWith sep ((32 :: y) :: ys) = 32 :: joinWith sep (y :: ys) := by
  cases ys <;> simp [joinWith]

theorem joinWith_comma_space :
    ∀ (x : List Nat) (xs : List (List Nat)),
      joinWith (asc ", ") (x :: xs) = joinWith [44] (x :: xs.map (fun p => 32 :: p)) := by
  intro x xs
  induction xs generalizing x with
  | nil => rfl
  | cons y t ih =>
    rw [List.map_cons, joinWith, joinWith, cons32_joinWith, ← ih y]
    have h1 : asc ", " = [44, 32] := by decide
    rw [h1]
    simp [List.append_assoc]

theorem dropWhile_all_neg {p : Nat → Bool} {s : List Nat}
    (h : ∀ c ∈ s, p c = false) : s.dropWhile p = s := by
  cases s with
  | nil => rfl
  | cons c t =>
    rw [List.dropWhile_cons, if_neg (by simp [h c (List.mem_cons_self c t)])]

theorem trimStr_eq_self_of {s : List Nat} (hne : s ≠ [])
    (hh : isWsB (s.headD 0) = false) (hl : isWsB (s.reverse.headD 0) = false) :
    trimStr s = s := by
  unfold trimStr
  have h1 : s.dropWhile isWsB = s := by
    cases s with
    | nil => rfl
    | cons c t =>
      simp only [List.headD_cons] at hh
      rw [List.dropWhile_cons, if_neg (by simp [hh])]
  rw [h1]
  have h2 : s.reverse.dropWhile isWsB = s.reverse := by
    cases hrev : s.reverse with
    | nil => rfl
    | cons b r =>
      rw [hrev] at hl
      simp only [List.headD_cons] at hl
      rw [List.dropWhile_cons, if_neg (by simp [hl])]
  rw [h2, List.reverse_reverse]

theorem trimStr_cons_space (s : List Nat) : trimStr (32 :: s) = trimStr s := by
  unfold trimStr
  rw [List.dropWhile_cons, if_pos (by decide)]

theorem consHead_cons (c : Nat) (p : List Nat) (t : List (List Nat)) :
    consHead c (p :: t) = (c :: p) :: t := rfl

theorem jsSplitWs_single {u : List Nat} (hne : u ≠ [])
    (hws : ∀ c ∈ u, isWsB c = false) : jsSplitWs u = [u] := by
  induction u with
  | nil => exact absurd rfl hne
  | cons c t ih =>
    have hc := hws c (List.mem_cons_self c t)
    rw [jsSplitWs]
    rw [if_neg (by simp [hc])]
    cases t with
    | nil => rfl
    | cons d r =>
      rw [ih (by simp) (fun a ha => hws a (List.mem_cons_of_mem _ ha)), consHead_cons]

theorem jsSplitWs_pair {u d : List Nat} (hu : u ≠ []) (hd : d ≠ [])
    (hwu : ∀ c ∈ u, isWsB c = false) (hwd : ∀ c ∈ d, isWsB c = false) :
    jsSplitWs (u ++ 32 :: d) = [u, d] := by
  induction u with
  | nil => exact absurd rfl hu
  | cons c t ih =>
    have hc := hwu c (List.mem_cons_self c t)
    rw [List.cons_append, jsSplitWs]
    rw [if_neg (by simp [hc])]
    cases t with
    | nil =>
      rw [List.nil_append, jsSplitWs]
      rw [if_pos (by decide)]
      cases d with
      | nil => exact absurd rfl hd
      | cons b r =>
        have hb := hwd b (List.mem_cons_self b r)
        rw [List.headD_cons, if_neg (by simp [hb]),
          jsSplitWs_single (by simp) hwd]
        rfl
    | cons e r =>
      rw [ih (by simp) (fun a ha => hwu a (List.mem_cons_of_mem _ ha)), consHead_cons]

theorem tokenOK_spec {s : List Nat} (h : tokenOK s = true) :
    s ≠ [] ∧ ∀ c ∈ s, isWsB c = false ∧ ¬ c = 44 := by
  unfold tokenOK at h
  rw [Bool.and_eq_true] at h
  obtain ⟨h1, h2⟩ := h
  constructor
  · simpa using h1
  · intro c hc
    have := List.all_eq_true.mp h2 c hc
    rw [Bool.and_eq_true] at this
    exact ⟨by simpa using this.1, by simpa using this.2⟩

theorem srcsetRewritePart_renders (origin : List Nat) (e : List Nat × Option (List Nat))
    (hu : tokenOK e.1 = true) (hd : ∀ d, e.2 = some d → tokenOK d = true) :
    srcsetRewritePart origin (renderSrcsetEntry e) = proxiedSrcsetEntry origin e := by
  obtain ⟨u, od⟩ := e
  obtain ⟨hune, huc⟩ := tokenOK_spec hu
  cases od with
  | none =>
    unfold renderSrcsetEntry srcsetRewritePart proxiedSrcsetEntry
    rw [List.append_nil]
    have htrim : trimStr u = u := by
      refine trimStr_eq_self_of hune ?_ ?_
      · cases u with
        | nil => exact absurd rfl hune
        | cons c t => exact (huc c (List.mem_cons_self c t)).1
      · cases hrev : u.reverse with
        | nil => simp at hrev; exact absurd hrev hune
        | cons b r =>
          have hb : b ∈ u := by
            rw [← List.mem_reverse, hrev]
            exact List.mem_cons_self b r
          simpa using (huc b hb).1
    rw [htrim, jsSplitWs_single hune (fun c hc => (huc c hc).1)]
    rfl
  | some d =>
    have hdOK := tokenOK_spec (hd d rfl)
    obtain ⟨hdne, hdc⟩ := hdOK
    unfold renderSrcsetEntry srcsetRewritePart proxiedSrcsetEntry
    have htrim : trimStr (u ++ 32 :: d) = u ++ 32 :: d := by
      refine trimStr_eq_self_of (by cases u <;> simp) ?_ ?_
      · cases u with
        | nil => exact absurd rfl hune
        | cons c t =>
          rw [List.cons_append, List.headD_cons]
          exact (huc c (List.mem_cons_self c t)).1
      · cases hrev : (u ++ 32 :: d).reverse with
        | nil => simp at hrev
        | cons b r =>
          have hb : b ∈ u ++ 32 :: d := by
            rw [← List.mem_reverse, hrev]
            exact List.mem_cons_self b r
          have hbd : b ∈ d := by
            have hrev2 : (u ++ 32 :: d).reverse = d.reverse ++ 32 :: u.reverse := by
              simp
            rw [hrev2] at hrev
            cases hdrev : d.reverse with
            | nil => simp at hdrev; exact absurd hdrev hdne
            | cons b2 r2 =>
              rw [hdrev] at hrev
              simp only [List.cons_append] at hrev
              have : b = b2 := ((List.cons.injEq _ _ _ _ ▸ hrev).1).symm
              rw [this, ← List.mem_reverse, hdrev]
              exact List.mem_cons_self b2 r2
          simpa using (hdc b hbd).1
    rw [htrim, jsSplitWs_pair hune hdne (fun c hc => (huc c hc).1) (fun c hc => (hdc c hc).1)]
    have hdne' : d.isEmpty = false := by
      cases d with
      | nil => exact absurd rfl hdne
      | cons b r => rfl
    simp [hdne']

theorem srcsetRewritePart_cons_space (origin part : List Nat) :
    srcsetRewritePart origin (32 :: part) = srcsetRewritePart origin part := by
  unfold srcsetRewritePart
  rw [trimStr_cons_space]

theorem renderSrcsetEntry_comma_free {e : List Nat × Option (List Nat)}
    (hu : tokenOK e.1 = true) (hd : ∀ d, e.2 = some d → tokenOK d = true) :
    ∀ c ∈ renderSrcsetEntry e, ¬ c = 44 := by
  obtain ⟨u, od⟩ := e
  obtain ⟨_, huc⟩ := tokenOK_spec hu
  intro c hc
  unfold renderSrcsetEntry at hc
  dsimp only at hc
  rw [List.mem_append] at hc
  cases hc with
  | inl h => exact (huc c h).2
  | inr h =>
    cases od with
    | none => simp at h
    | some d =>
      obtain ⟨_, hdc⟩ := tokenOK_spec (hd d rfl)
      rw [List.mem_cons] at h
      cases h with
      | inl h32 => rw [h32]; decide
      | inr hmem => exact (hdc c hmem).2

/-- C7 (confirmed): for every srcset attribute value made of
well-formed `<url> <descriptor>?` entries, the handler resolves each URL
independently against the rewriter's base and re-encodes it to its
proxied path, preserves each descriptor verbatim next to its rewritten
URL, and rejoins the entries with `", "`. -/
theorem srcset_rewrites_entries (origin : List Nat)
    (entries : List (List Nat × Option (List Nat)))
    (hne : entries ≠ [])
    (hwf : ∀ e ∈ entries, tokenOK e.1 = true ∧ ∀ d, e.2 = some d → tokenOK d = true) :
    srcsetHandler origin (renderSrcset entries) =
      joinWith (asc ", ") (entries.map (proxiedSrcsetEntry origin)) := by
  cases entries with
  | nil => exact absurd rfl hne
  | cons e0 es =>
    unfold srcsetHandler renderSrcset
    rw [List.map_cons, joinWith_comma_space,
      splitChar_joinWith44 _ (by simp) ?hfree]
    case hfree =>
      intro p hp
      rw [List.mem_cons] at hp
      cases hp with
      | inl h0 =>
        rw [h0]
        exact renderSrcsetEntry_comma_free (hwf e0 (List.mem_cons_self _ _)).1
          (hwf e0 (List.mem_cons_self _ _)).2
      | inr hmem =>
        rw [List.mem_map] at hmem
        obtain ⟨q, hq, rfl⟩ := hmem
        rw [List.mem_map] at hq
        obtain ⟨e, he, rfl⟩ := hq
        intro c hc
        rw [List.mem_cons] at hc
        cases hc with
        | inl h32 => rw [h32]; decide
        | inr hmem2 =>
          exact renderSrcsetEntry_comma_free
            (hwf e (List.mem_cons_of_mem _ he)).1
            (hwf e (List.mem_cons_of_mem _ he)).2 c hmem2
    rw [List.map_cons, List.map_cons,
      srcsetRewritePart_renders origin e0 (hwf e0 (List.mem_cons_self _ _)).1
        (hwf e0 (List.mem_cons_self _ _)).2,
      List.map_map, List.map_map]
    have hmap : es.map ((srcsetRewritePart origin ∘ fun p => 32 :: p) ∘ renderSrcsetEntry) =
        es.map (proxiedSrcsetEntry origin) := by
      refine List.map_congr_left ?_
      intro e he
      show srcsetRewritePart origin (32 :: renderSrcsetEntry e) = proxiedSrcsetEntry origin e
      rw [srcsetRewritePart_cons_space,
        srcsetRewritePart_renders origin e (hwf e (List.mem_cons_of_mem _ he)).1
          (hwf e (List.mem_cons_of_mem _ he)).2]
    rw [hmap]

/-- Witness for C7 at the spec's own example,
`srcset="a.png 1x, b.png 2x"` with origin `https://example.com/`. -/
theorem srcset_rewrites_entries_wit :
    srcsetHandler (asc "https://example.com/")
        (renderSrcset [(asc "a.png", some (asc "1x")), (asc "b.png", some (asc "2x"))]) =
      joinWith (asc ", ")
        ([(asc "a.png", some (asc "1x")), (asc "b.png", some (asc "2x"))].map
          (proxiedSrcsetEntry (asc "https://example.com/"))) :=
  srcset_rewrites_entries (asc "https://example.com/") _ (by simp) (by decide)

/-!
## C8 — `data:` URI passthrough in `url(...)` rewriting
-/

theorem urlDelim_false_spec {c : Nat} (h : urlDelim c = false) :
    ¬ c = 39 ∧ ¬ c = 34 ∧ ¬ c = 41 := by
  unfold urlDelim at h
  simp only [Bool.or_eq_false_iff, decide_eq_false_iff_not] at h
  exact ⟨h.1.1, h.1.2, h.2⟩

theorem asc_url_eq : asc "url(" = [117, 114, 108, 40] := by decide

theorem tryMatchUrl_no_url_head {s : List Nat}
    (h : (asc "url(").isPrefixOf s = false) : tryMatchUrl s = none := by
  rw [tryMatchUrl.eq_def]
  split
  · rename_i rest heq
    rw [asc_url_eq] at h
    simp [List.isPrefixOf] at h
  · rfl

theorem renderUrlCall_append (q : Option Nat) (u post : List Nat) :
    renderUrlCall q u ++ post =
      117 :: 114 :: 108 :: 40 ::
        ((match q with
          | none => u ++ [41]
          | some qc => qc :: (u ++ qc :: [41])) ++ post) := by
  unfold renderUrlCall
  rw [asc_url_eq]
  simp

theorem renderUrlCall_length {q : Option Nat} {u : List Nat} (hu : u ≠ []) :
    5 ≤ (renderUrlCall q u).length := by
  have : 1 ≤ u.length := by
    cases u with
    | nil => exact absurd rfl hu
    | cons a t => simp
  unfold renderUrlCall
  rw [asc_url_eq]
  cases q <;> simp <;> omega

theorem tryMatchUrl_render (q : Option Nat) (u post : List Nat)
    (hq : q = none ∨ q = some 39 ∨ q = some 34)
    (hu : u ≠ []) (huc : ∀ c ∈ u, urlDelim c = false) :
    tryMatchUrl (renderUrlCall q u ++ post) = some (q, u, post) := by
  have hall : ∀ c ∈ u, (fun b => !urlDelim b) c = true := by
    intro c hc
    simp [huc c hc]
  have hue : u.isEmpty = false := by
    cases u with
    | nil => exact absurd rfl hu
    | cons a t => rfl
  rcases hq with rfl | rfl | rfl
  · obtain ⟨uh, ut, rfl⟩ : ∃ h t, u = h :: t := by
      cases u with
      | nil => exact absurd rfl hu
      | cons a t => exact ⟨a, t, rfl⟩
    have huh := urlDelim_false_spec (huc uh (List.mem_cons_self uh ut))
    rw [renderUrlCall_append]
    have hshape : ((uh :: ut) ++ [41]) ++ post = uh :: (ut ++ 41 :: post) := by simp
    rw [hshape, tryMatchUrl.eq_def]
    dsimp only
    rw [if_neg (by simp [huh.1, huh.2.1])]
    have hr : uh :: (ut ++ 41 :: post) = (uh :: ut) ++ 41 :: post := by simp
    rw [hr]
    have hA := takeWhile_append_stop (p := fun b => !urlDelim b) (y := 41)
      (by decide) (uh :: ut) post
    rw [hA.1, hA.2, (takeWhile_all_eq hall).1, (takeWhile_all_eq hall).2,
      List.nil_append]
    dsimp only
    rw [if_pos (by simp)]
  · rw [renderUrlCall_append]
    have hshape : (39 :: (u ++ 39 :: [41])) ++ post = 39 :: (u ++ 39 :: 41 :: post) := by simp
    rw [hshape, tryMatchUrl.eq_def]
    dsimp only
    rw [if_pos (by simp)]
    have hA := takeWhile_append_stop (p := fun b => !urlDelim b) (y := 39)
      (by decide) u (41 :: post)
    rw [hA.1, hA.2, (takeWhile_all_eq hall).1, (takeWhile_all_eq hall).2,
      List.nil_append]
    dsimp only
    rw [if_pos (by simp [hue])]
  · rw [renderUrlCall_append]
    have hshape : (34 :: (u ++ 34 :: [41])) ++ post = 34 :: (u ++ 34 :: 41 :: post) := by simp
    rw [hshape, tryMatchUrl.eq_def]
    dsimp only
    rw [if_pos (by simp)]
    have hA := takeWhile_append_stop (p := fun b => !urlDelim b) (y := 34)
      (by decide) u (41 :: post)
    rw [hA.1, hA.2, (takeWhile_all_eq hall).1, (takeWhile_all_eq hall).2,
      List.nil_append]
    dsimp only
    rw [if_pos (by simp [hue])]

theorem tryMatchUrl_length {s r : List Nat} {q : Option Nat} {u : List Nat}
    (h : tryMatchUrl s = some (q, u, r)) : r.length < s.length := by
  rw [tryMatchUrl.eq_def] at h
  split at h
  · rename_i rest
    cases rest with
    | nil => exact absurd h (by simp)
    | cons c r2 =>
      dsimp only at h
      split at h
      · split at h
        · rename_i c2 r3 heq
          split at h
          · obtain ⟨_, _, hr3⟩ := by
              simpa using h
            have hlen : (List.dropWhile (fun b => !urlDelim b) r2).length ≤ r2.length :=
              length_dropWhile_le' _ _
            rw [heq] at hlen
            simp only [List.length_cons] at hlen
            rw [← hr3]
            simp only [List.length_cons]
            omega
          · exact absurd h (by simp)
        · exact absurd h (by simp)
      · split at h
        · rename_i r3 heq
          split at h
          · obtain ⟨_, _, hr3⟩ := by
              simpa using h
            have hlen : (List.dropWhile (fun b => !urlDelim b) (c :: r2)).length ≤
                (c :: r2).length := length_dropWhile_le' _ _
            rw [heq] at hlen
            simp only [List.length_cons] at hlen
            rw [← hr3]
            simp only [List.length_cons]
            omega
          · exact absurd h (by simp)
        · exact absurd h (by simp)
  · exact absurd h (by simp)

theorem cssScanF_nil (o : List Nat) (f : Nat) : cssScanF o f [] = [] := by
  cases f <;> rfl

theorem cssScanF_fuel (o : List Nat) :
    ∀ f g s, s.length ≤ f → s.length ≤ g → cssScanF o f s = cssScanF o g s := by
  intro f
  induction f with
  | zero =>
    intro g s hf _
    have : s = [] := by
      cases s with
      | nil => rfl
      | cons c t => simp at hf
    rw [this, cssScanF_nil, cssScanF_nil]
  | succ f ih =>
    intro g s hf hg
    cases s with
    | nil => rw [cssScanF_nil, cssScanF_nil]
    | cons c rest =>
      cases g with
      | zero => simp at hg
      | succ g' =>
        rw [cssScanF, cssScanF]
        cases hm : tryMatchUrl (c :: rest) with
        | none =>
          dsimp only
          simp only [List.length_cons] at hf hg
          rw [ih g' rest (by omega) (by omega)]
        | some v =>
          obtain ⟨q, u, r3⟩ := v
          dsimp only
          have hlt := tryMatchUrl_length hm
          simp only [List.length_cons] at hf hg hlt
          rw [ih g' r3 (by omega) (by omega)]

theorem url4_not_prefix_boundary {pre : List Nat} (tail : List Nat)
    (hne : pre ≠ []) (hsub : containsSub pre (asc "url(") = false) :
    (asc "url(").isPrefixOf (pre ++ 117 :: 114 :: 108 :: tail) = false := by
  rw [asc_url_eq] at hsub ⊢
  match pre, hne with
  | [a], _ => simp [List.isPrefixOf]
  | [a, b], _ => simp [List.isPrefixOf]
  | [a, b, c], _ => simp [List.isPrefixOf]
  | a :: b :: c :: d :: rest, _ =>
    simp only [containsSub, Bool.or_eq_false_iff] at hsub
    have h1 := hsub.1
    simp only [List.isPrefixOf, List.cons_append, Bool.and_eq_true, beq_iff_eq] at h1 ⊢
    simpa using h1

theorem cssScan_data_skip (o : List Nat) (q : Option Nat) (u post : List Nat)
    (hq : q = none ∨ q = some 39 ∨ q = some 34)
    (hu : u ≠ []) (huc : ∀ c ∈ u, urlDelim c = false)
    (hdata : (asc "data:").isPrefixOf u = true) :
    ∀ pre f, containsSub pre (asc "url(") = false →
      (pre ++ renderUrlCall q u ++ post).length ≤ f →
      cssScanF o f (pre ++ renderUrlCall q u ++ post) =
        pre ++ renderUrlCall q u ++ cssScanF o post.length post := by
  intro pre
  induction pre with
  | nil =>
    intro f hsub hf
    rw [List.nil_append] at hf ⊢
    cases f with
    | zero =>
      exfalso
      have h5 := renderUrlCall_length (q := q) hu
      simp only [List.length_append] at hf
      omega
    | succ f' =>
      have hshape := renderUrlCall_append q u post
      rw [hshape, cssScanF, ← hshape, tryMatchUrl_render q u post hq hu huc]
      dsimp only
      have hrepl : cssReplaceMatch o q u = renderUrlCall q u := by
        unfold cssReplaceMatch
        rw [if_pos hdata]
      rw [hrepl]
      have h5 := renderUrlCall_length (q := q) hu
      simp only [List.length_append] at hf
      rw [cssScanF_fuel o f' post.length post (by omega) (le_refl _)]
  | cons c pre' ih =>
    intro f hsub hf
    have hsub' : containsSub pre' (asc "url(") = false := by
      rw [containsSub] at hsub
      exact (Bool.or_eq_false_iff.mp hsub).2
    cases f with
    | zero => simp at hf
    | succ f' =>
      rw [List.cons_append, List.cons_append, cssScanF]
      obtain ⟨tl, htl⟩ : ∃ tl, renderUrlCall q u ++ post = 117 :: 114 :: 108 :: tl :=
        ⟨_, renderUrlCall_append q u post⟩
      have hpref : (asc "url(").isPrefixOf
          (c :: (pre' ++ renderUrlCall q u ++ post)) = false := by
        have := @url4_not_prefix_boundary (c :: pre') tl (by simp) hsub
        rw [show (c :: pre') ++ 117 :: 114 :: 108 :: tl =
            c :: (pre' ++ renderUrlCall q u ++ post) from by
          rw [List.append_assoc, ← htl, List.cons_append]] at this
        exact this
      rw [show (pre' ++ renderUrlCall q u) ++ post =
          pre' ++ renderUrlCall q u ++ post from by rw [List.append_assoc]]
      rw [tryMatchUrl_no_url_head hpref]
      dsimp only
      have hf' : (pre' ++ renderUrlCall q u ++ post).length ≤ f' := by
        simp only [List.cons_append, List.length_cons] at hf
        simp only [List.length_append] at hf ⊢
        omega
      rw [ih f' hsub' hf']
      simp [List.append_assoc]

/-- C8 (confirmed): in both the inline-`style` handler and the CSS body
rewriter, a `url(...)` occurrence whose referenced URL begins with
`data:` is left byte-for-byte unchanged in the output, and rewriting
continues independently after it.  (`pre` is the text before the
occurrence, free of any `url(`; the URL is non-empty and free of quotes
and `)` as the regex requires.) -/
theorem data_uri_passthrough (origin pre u post : List Nat) (q : Option Nat)
    (hsub : containsSub pre (asc "url(") = false)
    (hq : q = none ∨ q = some 39 ∨ q = some 34)
    (hu : u ≠ [])
    (huc : ∀ c ∈ u, urlDelim c = false)
    (hdata : (asc "data:").isPrefixOf u = true) :
    htmlStyleHandler origin (pre ++ renderUrlCall q u ++ post) =
        pre ++ renderUrlCall q u ++ htmlStyleHandler origin post ∧
      rewriteCssBody origin (pre ++ renderUrlCall q u ++ post) =
        pre ++ renderUrlCall q u ++ rewriteCssBody origin post := by
  have main := cssScan_data_skip origin q u post hq hu huc hdata pre
    (pre ++ renderUrlCall q u ++ post).length hsub (le_refl _)
  exact ⟨main, main⟩

/-- Witness for C8 at `body{background:url(data:image/png;base64,AA)}`. -/
theorem data_uri_passthrough_wit :
    rewriteCssBody (asc "https://example.com/")
        (asc "body\x7bbackground:" ++ renderUrlCall none (asc "data:image/png;base64,AA") ++ asc "\x7d") =
      asc "body\x7bbackground:" ++ renderUrlCall none (asc "data:image/png;base64,AA") ++
        rewriteCssBody (asc "https://example.com/") (asc "\x7d") :=
  (data_uri_passthrough (asc "https://example.com/") (asc "body\x7bbackground:")
    (asc "data:image/png;base64,AA") (asc "\x7d") none
    (by decide) (Or.inl rfl) (by decide) (by decide) (by decide)).2

/-!
## C10 — the decoded target comes from the path only

A raw (unencoded) `?` in the request URL starts the query string; the
parser keeps it out of `pathname`, and the dispatchers read nothing but
`url.origin` and `url.pathname`, so the decoded target — and the string
handed to the outbound fetch — is unaffected by anything after the `?`.
-/

theorem isPrefixOf_append_of {xs ys : List Nat} (zs : List Nat)
    (h : xs.isPrefixOf ys = true) : xs.isPrefixOf (ys ++ zs) = true := by
  induction xs generalizing ys with
  | nil => simp [List.isPrefixOf]
  | cons x t ih =>
    cases ys with
    | nil => simp [List.isPrefixOf] at h
    | cons y u =>
      simp only [List.isPrefixOf, Bool.and_eq_true, beq_iff_eq] at h ⊢
      exact ⟨h.1, ih h.2⟩

theorem parsePathRest_append_query (scheme host : List Nat) (port : Option Nat)
    (rest qs : List Nat) (hrest : ∀ c ∈ rest, pathChar c = true) (hqs : 35 ∉ qs) :
    parsePathRest scheme host port (rest ++ 63 :: qs) =
        { parsePathRest scheme host port rest with query := some qs } ∧
      (parsePathRest scheme host port rest).query = none ∧
      (parsePathRest scheme host port rest).fragment = none := by
  unfold parsePathRest
  have hstop := takeWhile_append_stop (p := pathChar) (y := 63) (by decide) rest qs
  have hall := takeWhile_all_eq hrest
  rw [hstop.1, hstop.2, hall.1, hall.2, List.nil_append]
  dsimp only
  have hq : parseQF (63 :: qs) = (some qs, none) := by
    unfold parseQF
    have h1 := @takeWhile_all_eq (fun c => c != 35) qs
      (fun c hc => by
        simp only [bne_iff_ne, ne_eq, decide_eq_true_eq]
        intro hEq
        exact hqs (hEq ▸ hc))
    dsimp only
    rw [h1.1, h1.2]
  rw [hq]
  exact ⟨rfl, rfl, rfl⟩

theorem pathChar_of_not_mem {r : List Nat} (h63 : 63 ∉ r) (h35 : 35 ∉ r) :
    ∀ c ∈ r, pathChar c = true := by
  intro c hc
  unfold pathChar
  simp only [Bool.and_eq_true, bne_iff_ne, ne_eq]
  exact ⟨fun hEq => h63 (hEq ▸ hc), fun hEq => h35 (hEq ▸ hc)⟩

theorem parseAuthority_append_query (scheme r qs : List Nat) (u : Url)
    (h63 : 63 ∉ r) (h35 : 35 ∉ r) (hqs : 35 ∉ qs)
    (hok : parseAuthority scheme r = some u) :
    parseAuthority scheme (r ++ 63 :: qs) = some { u with query := some qs } ∧
      u.query = none ∧ u.fragment = none := by
  unfold parseAuthority at hok ⊢
  have hsplit := takeWhile_append_stop (p := authChar) (y := 63) (by decide) r qs
  rw [hsplit.1, hsplit.2]
  have hrestP : ∀ c ∈ r.dropWhile authChar, pathChar c = true :=
    pathChar_of_not_mem (fun hc => h63 (mem_of_mem_dropWhile' hc))
      (fun hc => h35 (mem_of_mem_dropWhile' hc))
  dsimp only at hok ⊢
  by_cases hhost : (!(lowerL ((r.takeWhile authChar).takeWhile
      (fun c => c != 58))).isEmpty &&
      (lowerL ((r.takeWhile authChar).takeWhile (fun c => c != 58))).all hostChar) = true
  · rw [if_pos hhost] at hok ⊢
    by_cases hport : ((r.takeWhile authChar).dropWhile (fun c => c != 58)).isEmpty = true
    · rw [if_pos hport] at hok ⊢
      have hu := Option.some.inj hok
      have hrec := parsePathRest_append_query scheme
        (lowerL ((r.takeWhile authChar).takeWhile (fun c => c != 58))) none
        (r.dropWhile authChar) qs hrestP hqs
      rw [hu] at hrec
      exact ⟨by rw [hrec.1], hrec.2.1, hrec.2.2⟩
    · rw [if_neg hport] at hok ⊢
      by_cases hdig : (((r.takeWhile authChar).dropWhile (fun c => c != 58)).tail.all
          isDigitB) = true
      · rw [if_pos hdig] at hok ⊢
        by_cases hde : (((r.takeWhile authChar).dropWhile (fun c => c != 58)).tail).isEmpty = true
        · rw [if_pos hde] at hok ⊢
          have hu := Option.some.inj hok
          have hrec := parsePathRest_append_query scheme
            (lowerL ((r.takeWhile authChar).takeWhile (fun c => c != 58))) none
            (r.dropWhile authChar) qs hrestP hqs
          rw [hu] at hrec
          exact ⟨by rw [hrec.1], hrec.2.1, hrec.2.2⟩
        · rw [if_neg hde] at hok ⊢
          by_cases hbig : 65536 ≤ digitsToNat (((r.takeWhile authChar).dropWhile
              (fun c => c != 58)).tail)
          · rw [if_pos hbig] at hok
            exact absurd hok (by simp)
          · rw [if_neg hbig] at hok ⊢
            by_cases hdef : defaultPort scheme =
                some (digitsToNat (((r.takeWhile authChar).dropWhile (fun c => c != 58)).tail))
            · rw [if_pos hdef] at hok ⊢
              have hu := Option.some.inj hok
              have hrec := parsePathRest_append_query scheme
                (lowerL ((r.takeWhile authChar).takeWhile (fun c => c != 58))) none
                (r.dropWhile authChar) qs hrestP hqs
              rw [hu] at hrec
              exact ⟨by rw [hrec.1], hrec.2.1, hrec.2.2⟩
            · rw [if_neg hdef] at hok ⊢
              have hu := Option.some.inj hok
              have hrec := parsePathRest_append_query scheme
                (lowerL ((r.takeWhile authChar).takeWhile (fun c => c != 58)))
                (some (digitsToNat (((r.takeWhile authChar).dropWhile
                  (fun c => c != 58)).tail)))
                (r.dropWhile authChar) qs hrestP hqs
              rw [hu] at hrec
              exact ⟨by rw [hrec.1], hrec.2.1, hrec.2.2⟩
      · rw [if_neg hdig] at hok
        exact absurd hok (by simp)
  · rw [if_neg hhost] at hok
    exact absurd hok (by simp)

theorem parseURL_append_query (b qs : List Nat) (u : Url)
    (h63 : 63 ∉ b) (h35 : 35 ∉ b) (hqs : 35 ∉ qs)
    (hok : parseURL b = some u) :
    parseURL (b ++ 63 :: qs) = some { u with query := some qs } ∧
      u.query = none ∧ u.fragment = none := by
  unfold parseURL at hok ⊢
  dsimp only at hok ⊢
  cases hd : b.dropWhile (fun c => c != 58) with
  | nil =>
    rw [hd] at hok
    exact absurd hok (by simp)
  | cons c0 rest0 =>
    have hne : b.dropWhile (fun c => c != 58) ≠ [] := by rw [hd]; simp
    have hsplit := takeWhile_append_in (p := fun c => c != 58) hne (63 :: qs)
    rw [hd] at hsplit
    rw [hsplit.1, hsplit.2]
    rw [hd] at hok
    simp only [List.cons_append, List.isEmpty_cons, List.tail_cons] at hok ⊢
    by_cases hsch : (!(b.takeWhile (fun c => c != 58)).isEmpty &&
        isAlphaB ((b.takeWhile (fun c => c != 58)).headD 0) &&
        (b.takeWhile (fun c => c != 58)).all schemeChar &&
        (lowerL (b.takeWhile (fun c => c != 58)) == asc "http" ||
          lowerL (b.takeWhile (fun c => c != 58)) == asc "https")) = true
    · rw [if_pos hsch] at hok ⊢
      by_cases hpp : (asc "//").isPrefixOf rest0 = true
      · rw [if_pos hpp] at hok
        rw [if_pos (isPrefixOf_append_of (63 :: qs) hpp)]
        have hlen2 : 2 ≤ rest0.length := by
          have := isPrefixOf_length_le hpp
          simpa using this
        rw [List.drop_append_of_le_length hlen2]
        have hmem0 : ∀ x ∈ rest0.drop 2, x ∈ b := by
          intro x hx
          have h1 : x ∈ rest0 := List.mem_of_mem_drop hx
          have h2 : x ∈ c0 :: rest0 := List.mem_cons_of_mem _ h1
          rw [← hd] at h2
          exact mem_of_mem_dropWhile' h2
        exact parseAuthority_append_query _ _ qs u
          (fun hc => h63 (hmem0 _ hc)) (fun hc => h35 (hmem0 _ hc)) hqs hok
      · rw [if_neg hpp] at hok
        exact absurd hok (by simp)
    · rw [if_neg hsch] at hok
      exact absurd hok (by simp)

theorem workerAfterDecode_fetched_eq {origin tg t : List Nat}
    {T : List Nat → Except (List Nat) Upstream} {hT : List Nat → List Nat → List Nat}
    (h : (workerAfterDecode origin tg T hT).fetched = some t) : t = tg := by
  unfold workerAfterDecode at h
  split at h
  · simp at h
  · cases hTt : T tg with
    | error e =>
      rw [hTt] at h
      exact (Option.some.inj h).symm
    | ok up =>
      rw [hTt] at h
      rw [workerHandleUpstream_fetched] at h
      exact (Option.some.inj h).symm

theorem uvAfterDecode_fetched_eq {origin tg t : List Nat}
    {T : List Nat → Except (List Nat) Upstream} {hT : List Nat → List Nat → List Nat}
    (h : (uvAfterDecode origin tg T hT).fetched = some t) : t = tg := by
  unfold uvAfterDecode at h
  split at h
  · simp at h
  · cases hTt : T tg with
    | error e =>
      rw [hTt] at h
      exact (Option.some.inj h).symm
    | ok up =>
      rw [hTt] at h
      dsimp only at h
      split at h
      · exact (Option.some.inj h).symm
      · rw [uvServe_fetched] at h
        exact (Option.some.inj h).symm

theorem workerDispatch_fetched_decode {origin pathname t : List Nat}
    {T : List Nat → Except (List Nat) Upstream} {hT : List Nat → List Nat → List Nat}
    (h : (workerDispatch origin pathname T hT).fetched = some t) :
    decodeURIComponent (pathname.drop (asc "/service/").length) = some t := by
  unfold workerDispatch at h
  split at h
  · split at h
    · simp at h
    · split at h
      · simp at h
      · rename_i target heq
        rw [workerAfterDecode_fetched_eq h]
        exact heq
  · simp at h

theorem uvDispatch_fetched_decode {origin pathname t : List Nat}
    {T : List Nat → Except (List Nat) Upstream} {hT : List Nat → List Nat → List Nat}
    (h : (uvDispatch origin pathname T hT).fetched = some t) :
    decodeURIComponent (pathname.drop (asc "/service/").length) = some t := by
  unfold uvDispatch at h
  split at h
  · simp at h
  · split at h
    · simp at h
    · split at h
      · simp at h
      · split at h
        · simp at h
        · rename_i target heq
          rw [uvAfterDecode_fetched_eq h]
          exact heq

theorem originString_update_query (u : Url) (q : Option (List Nat)) :
    originString { u with query := q } = originString u := by
  cases u
  rfl

theorem path_update_query (u : Url) (q : Option (List Nat)) :
    ({ u with query := q } : Url).path = u.path := by
  cases u
  rfl

/-- C10 (confirmed): the decoded target is derived from the request path
alone.  Appending a raw query string (`?` plus anything without `#`) to
a request URL changes neither dispatcher's behaviour at all — response
and outbound fetch included — and whenever an outbound fetch happens,
its target is exactly the percent-decode of the pathname after the route
prefix, so only a percent-encoded `?` can reach the target. -/
theorem target_from_path_only (b qs : List Nat) (u : Url)
    (T : List Nat → Except (List Nat) Upstream) (hT : List Nat → List Nat → List Nat)
    (h63 : 63 ∉ b) (h35 : 35 ∉ b) (hqs : 35 ∉ qs)
    (hb : parseURL b = some u) :
    workerFetchEntry (b ++ 63 :: qs) T hT = workerFetchEntry b T hT ∧
      uvFetchEntry (b ++ 63 :: qs) T hT = uvFetchEntry b T hT ∧
      (∀ t, (workerFetchEntry b T hT).fetched = some t →
        decodeURIComponent (u.path.drop (asc "/service/").length) = some t) ∧
      (∀ t, (uvFetchEntry b T hT).fetched = some t →
        decodeURIComponent (u.path.drop (asc "/service/").length) = some t) := by
  obtain ⟨hparse, _, _⟩ := parseURL_append_query b qs u h63 h35 hqs hb
  refine ⟨?_, ?_, ?_, ?_⟩
  · unfold workerFetchEntry
    rw [hparse, hb]
    dsimp only
    rw [originString_update_query, path_update_query]
  · unfold uvFetchEntry
    rw [hparse, hb]
    dsimp only
    rw [originString_update_query, path_update_query]
  · intro t ht
    unfold workerFetchEntry at ht
    rw [hb] at ht
    exact workerDispatch_fetched_decode ht
  · intro t ht
    unfold uvFetchEntry at ht
    rw [hb] at ht
    exact uvDispatch_fetched_decode ht

/-- Witness for C10: appending `?x=1` to a concrete proxied request URL
leaves the worker dispatcher's outcome unchanged. -/
theorem target_from_path_only_wit :
    workerFetchEntry (asc "https://w.dev/service/https%3A%2F%2Fa.com%2F" ++ 63 :: asc "x=1")
        (fun _ => .error (asc "e")) (fun _ b => b) =
      workerFetchEntry (asc "https://w.dev/service/https%3A%2F%2Fa.com%2F")
        (fun _ => .error (asc "e")) (fun _ b => b) :=
  (target_from_path_only (asc "https://w.dev/service/https%3A%2F%2Fa.com%2F") (asc "x=1")
    ⟨asc "https", asc "w.dev", none, asc "/service/https%3A%2F%2Fa.com%2F", none, none⟩
    (fun _ => .error (asc "e")) (fun _ b => b)
    (by decide) (by decide) (by decide) (by decide)).1
